import Mathlib

/-!
Shallow embedding of the BMP decoder in `src/bmp.hpp` (namespace `bmp`,
class `Reader`).  The decoder is a pure function from an in-memory byte
buffer to either an `Image` or an error.  C++ `throw ParseError(...)`
sites become `Except.error` values; every raw memory access of the C++
code (`p_[i]`, `le16`, `le32`, `memcpy`) is embedded as an `Option`-valued
read that yields the distinguished error `Err.oob` when the access would
fall outside the buffer, so that out-of-bounds behaviour is observable in
the model.  Machine integers are modelled as `Nat`/`Int` with explicit
`% 2^32` at the places where the C++ code performs 32-bit arithmetic
(notably the `uint32_t` cast inside `row_stride_aligned`).  `size_t`
is modelled as unbounded `Nat`, matching a 64-bit platform where the
decoder's `size_t` arithmetic does not wrap.
-/

/-- Error outcomes of the decoder.  All constructors except `oob` mirror a
`throw ParseError(...)` site of `Reader::parse` and the decode helpers;
`oob` marks a memory access outside the input buffer (undefined behaviour
in the C++ source, made observable in the model). -/
inductive Err where
  | truncatedHeader
  | notBmp
  | badOffset
  | missingDibSize
  | truncatedDib
  | unsupportedDib
  | invalidPlanes
  | invalidBpp
  | zeroDimensions
  | pixelOffsetBeyondData
  | missingPalette
  | pixelTruncated
  | unsupportedCompressionIndexed
  | unsupportedCompression16
  | unsupportedCompression24
  | unsupportedCompression32
  | unsupportedBpp
  | oob
  deriving DecidableEq, Repr

/-- DIB header variant tag (enum `DIBType`). -/
inductive DIBType where
  | CORE_OS2_V1
  | OS2_V2
  | INFO
  | V2
  | V3
  | V4
  | V5
  deriving DecidableEq, Repr

/-- Output pixel format tag (enum `PixelFormat`). -/
inductive PixelFormat where
  | RGBA8
  | BGRA8
  | BGR8
  | Gray8
  | RawBitfields
  deriving DecidableEq, Repr

/-- Per-channel bit masks (struct `Bitmasks`), raw `uint32` values. -/
structure Bitmasks where
  r : Nat := 0
  g : Nat := 0
  b : Nat := 0
  a : Nat := 0
  deriving DecidableEq, Repr

/-- CIE XYZ fixed-point triple component (struct `CIEXYZ`). -/
structure CIEXYZ where
  x : Int := 0
  y : Int := 0
  z : Int := 0
  deriving DecidableEq, Repr

/-- CIE XYZ endpoints for the three channels (struct `CIEXYZTRIPLE`). -/
structure CIEXYZTRIPLE where
  r : CIEXYZ := {}
  g : CIEXYZ := {}
  b : CIEXYZ := {}
  deriving DecidableEq, Repr

/-- Decoded header metadata (struct `Metadata`).  `compression`, `cstype`
and `intent` carry the raw `uint32` wire values; `width`/`height` carry
the signed 32-bit values as `Int`. -/
structure Metadata where
  dib_type : DIBType := .INFO
  width : Int := 0
  height : Int := 0
  planes : Nat := 1
  bpp : Nat := 0
  compression : Nat := 0
  image_size : Nat := 0
  ppm_x : Nat := 0
  ppm_y : Nat := 0
  color_used : Nat := 0
  color_important : Nat := 0
  has_masks : Bool := false
  masks : Bitmasks := {}
  cstype : Nat := 0x73524742
  endpoints : CIEXYZTRIPLE := {}
  gamma_red : Nat := 0
  gamma_green : Nat := 0
  gamma_blue : Nat := 0
  intent : Nat := 4
  embedded_profile : List Nat := []
  file_offset_pixels : Nat := 0
  header_size : Nat := 0
  file_size : Nat := 0
  deriving DecidableEq, Repr

/-- `Metadata::top_down()`: negative height means rows are stored
top-down. -/
def Metadata.topDown (m : Metadata) : Bool := m.height < 0

/-- `Metadata::abs_height()`. -/
def Metadata.absHeight (m : Metadata) : Nat := m.height.natAbs

/-- Absolute value of the (signed) width, as the decoders compute it
(`m.width < 0 ? uint32_t(-m.width) : uint32_t(m.width)`). -/
def Metadata.absWidth (m : Metadata) : Nat := m.width.natAbs

/-- A BGRA palette entry (struct `PaletteEntry`). -/
structure PaletteEntry where
  b : Nat
  g : Nat
  r : Nat
  a : Nat
  deriving DecidableEq, Repr

/-- Decoder output (struct `Image`). -/
structure Image where
  meta : Metadata
  format : PixelFormat := .RGBA8
  pixels : List Nat := []
  palette : List PaletteEntry := []
  raw_masks : Bitmasks := {}
  raw_bits_per_pixel : Nat := 0
  deriving DecidableEq, Repr

/-- Mutable byte buffer used while a decoder fills the pixel array:
a length together with the byte at each index.  `std::vector` writes are
function updates; the vector is materialized to a `List Nat` once a
decode path finishes. -/
structure Buf where
  size : Nat
  data : Nat → Nat

/-- Write one byte of a `Buf` (a `vector::operator[]` store). -/
def Buf.set (b : Buf) (i v : Nat) : Buf :=
  { b with data := fun j => if j = i then v else b.data j }

/-- Materialize the byte buffer to a list (the owned `pixels` vector). -/
def Buf.toList (b : Buf) : List Nat :=
  (List.range b.size).map b.data

/-- Read the byte at index `i`, `none` when the access is past the end of
the buffer.  The stored value is reduced mod 256 because the C++ buffer
has type `const uint8_t*`. -/
def byteAt? (l : List Nat) (i : Nat) : Option Nat :=
  (l.get? i).map (fun b => b % 256)

/-- Little-endian 16-bit read (`le16`). -/
def le16? (l : List Nat) (i : Nat) : Option Nat := do
  let a ← byteAt? l i
  let b ← byteAt? l (i+1)
  pure (a ||| (b <<< 8))

/-- Little-endian 32-bit read (`le32`). -/
def le32? (l : List Nat) (i : Nat) : Option Nat := do
  let a ← byteAt? l i
  let b ← byteAt? l (i+1)
  let c ← byteAt? l (i+2)
  let d ← byteAt? l (i+3)
  pure (a ||| (b <<< 8) ||| (c <<< 16) ||| (d <<< 24))

/-- Read `len` consecutive bytes starting at `off` (a `memcpy` from the
source buffer); `none` when the range leaves the buffer. -/
def readSlice? (l : List Nat) (off len : Nat) : Option (List Nat) :=
  if off + len ≤ l.length then some (((l.drop off).take len).map (fun b => b % 256))
  else none

/-- Lift an optional memory read into the decoder monad: a failed read is
an out-of-bounds access. -/
def rd {α : Type} : Option α → Except Err α
  | some v => .ok v
  | none => .error .oob

/-- Reinterpret a `uint32` wire value as a signed 32-bit integer
(the `int32_t(...)` casts of the parser). -/
def toInt32 (u : Nat) : Int :=
  if u < 2147483648 then (u : Int) else (u : Int) - 4294967296

/-- Reinterpret a `uint16` wire value as a signed 16-bit integer
(the `int16_t(...)` casts of the 12-byte-header branch). -/
def toInt16 (u : Nat) : Int :=
  if u < 32768 then (u : Int) else (u : Int) - 65536

/-- `Reader::row_stride_aligned`: the bit count is computed in 64 bits,
but the byte count is then cast to `uint32_t` (which wraps mod `2^32`)
before being rounded up to a multiple of 4 (`(bytes + 3u) & ~3u`). -/
def row_stride_aligned (width bpp : Nat) : Nat :=
  let bits := width * bpp
  let bytes := ((bits + 7) / 8) % 4294967296
  (((bytes + 3) % 4294967296) / 4) * 4

/-- The `shift` loop of `bit_extract_norm`: starting from bit position
`s`, advance while the mask bit is zero.  Fuel-indexed; 32 units of fuel
mirror the 32-bit mask width (for a nonzero `uint32` mask the loop stops
within 32 steps). -/
def tzLoop (mask : Nat) : Nat → Nat → Nat
  | 0, s => s
  | fuel+1, s => if (mask >>> s) % 2 = 0 then tzLoop mask fuel (s+1) else s

/-- The `width` loop of `bit_extract_norm`: count contiguous set low bits
of `m`. -/
def onesLoop : Nat → Nat → Nat → Nat
  | 0, _, w => w
  | fuel+1, m, w => if m % 2 = 1 then onesLoop fuel (m / 2) (w+1) else w

/-- The bit-replication loop of `bit_extract_norm`
(`while (width < 8) { x = (x << width) | comp; width <<= 1; }` followed by
`uint8_t(x & 0xFF)`).  The callers always pass `1 ≤ width < 8`, for which
the width doubles to at least 8 within three iterations, so 4 units of
fuel are exact. -/
def repLoop (comp : Nat) : Nat → Nat → Nat → Nat
  | 0, x, _ => x % 256
  | fuel+1, x, w => if w < 8 then repLoop comp fuel ((x <<< w) ||| comp) (w * 2) else x % 256

/-- `Reader::bit_extract_norm`: extract the channel under `mask` from
pixel word `v` and normalize it to 8 bits.  The final `uint8_t` casts are
the `% 256` reductions. -/
def bit_extract_norm (v mask : Nat) : Nat :=
  if mask = 0 then 0
  else
    let shift := tzLoop mask 32 0
    let width := onesLoop 33 (mask >>> shift) 0
    let comp := (v &&& mask) >>> shift
    if width ≥ 8 then (comp >>> (width - 8)) % 256
    else if width = 0 then 0
    else repLoop comp 4 comp width

/-- The shared pixel store of `put_px` in the decode helpers: remap an
out-of-range palette index to 0 and write the four BGRA bytes at
`(y*W + x)*4`. -/
def putPxU (pal : List PaletteEntry) (W : Nat) (b : Buf) (x y idx : Nat) : Buf :=
  let idx2 := if idx ≥ pal.length then 0 else idx
  let pe := pal.getD idx2 ⟨0, 0, 0, 0⟩
  let off := (y * W + x) * 4
  ((((b.set off pe.b).set (off+1) pe.g).set (off+2) pe.r).set (off+3) pe.a)

/-- The `put` lambda of `decode_rle8` / `decode_rle4`: writes are silently
clipped when the coordinate is outside the image. -/
def putClip (pal : List PaletteEntry) (W H : Nat) (b : Buf) (x y idx : Nat) : Buf :=
  if x ≥ W ∨ y ≥ H then b else putPxU pal W b x y idx

/-- One encoded RLE run (`for (k = 0; k < count; k++) { put(x++, yy, val); ... }`
of `decode_rle8`): emit the same palette index `count` times, advancing to
the next row when `x` reaches `W` and stopping early when `y` reaches `H`.
Returns the final `(x, y, buffer)`. -/
def rle8Run (pal : List PaletteEntry) (W H : Nat) (td : Bool) (val : Nat) :
    Nat → Nat → Nat → Buf → Nat × Nat × Buf
  | 0, x, y, b => (x, y, b)
  | k+1, x, y, b =>
    let yy := if td then y else H - 1 - y
    let b2 := putClip pal W H b x yy val
    let x2 := x + 1
    if x2 ≥ W then
      let y2 := y + 1
      if y2 ≥ H then (0, y2, b2)
      else rle8Run pal W H td val k 0 y2 b2
    else rle8Run pal W H td val k x2 y b2

/-- The absolute-mode run of `decode_rle8`: emit the next `k` stream bytes
literally (`put(x++, yy, pix[i++])`), with the same row-advance and early
stop as an encoded run.  Returns the final `(x, y, i, buffer)`. -/
def rle8Abs (pix : List Nat) (pal : List PaletteEntry) (W H : Nat) (td : Bool) :
    Nat → Nat → Nat → Nat → Buf → Except Err (Nat × Nat × Nat × Buf)
  | 0, x, y, i, b => .ok (x, y, i, b)
  | k+1, x, y, i, b => do
    let v ← rd (byteAt? pix i)
    let yy := if td then y else H - 1 - y
    let b2 := putClip pal W H b x yy v
    let i2 := i + 1
    let x2 := x + 1
    if x2 ≥ W then
      let y2 := y + 1
      if y2 ≥ H then .ok (0, y2, i2, b2)
      else rle8Abs pix pal W H td k 0 y2 i2 b2
    else rle8Abs pix pal W H td k x2 y i2 b2

/-- The delta escape of `decode_rle8` (lines 621-632): add `dx`/`dy` and
clamp `x` to `W` and `y` to `H`. -/
def rle8Delta (W H x y dx dy : Nat) : Nat × Nat :=
  let x2 := x + dx
  let y2 := y + dy
  (if x2 ≥ W then W else x2, if y2 ≥ H then H else y2)

/-- The delta escape of `decode_rle4` (lines 716-722): add `dx`/`dy`
with no clamping.  `x` and `y` are `uint32_t`, so the additions wrap
mod `2^32` (for `x` the wrap is reachable by accumulating deltas). -/
def rle4Delta (x y dx dy : Nat) : Nat × Nat :=
  ((x + dx) % 4294967296, (y + dy) % 4294967296)

/-- The main loop of `decode_rle8`
(`while (i < pix_size && y < H) { ... }`).  Fuel-indexed: every iteration
consumes at least one stream byte, so `pixSize + 1` units of fuel always
reach the loop's own exit conditions. -/
def rle8Loop (pix : List Nat) (pixSize W H : Nat) (td : Bool) (pal : List PaletteEntry) :
    Nat → Nat → Nat → Nat → Buf → Except Err Buf
  | 0, _, _, _, b => .ok b
  | fuel+1, x, y, i, b =>
    if i < pixSize ∧ y < H then
      if i + 1 > pixSize then .ok b
      else do
        let count ← rd (byteAt? pix i)
        let i1 := i + 1
        if count ≠ 0 then
          if i1 ≥ pixSize then .ok b
          else do
            let val ← rd (byteAt? pix i1)
            let s := rle8Run pal W H td val count x y b
            rle8Loop pix pixSize W H td pal fuel s.1 s.2.1 (i1 + 1) s.2.2
        else
          if i1 ≥ pixSize then .ok b
          else do
            let cmd ← rd (byteAt? pix i1)
            let i2 := i1 + 1
            if cmd = 0 then rle8Loop pix pixSize W H td pal fuel 0 (y+1) i2 b
            else if cmd = 1 then .ok b
            else if cmd = 2 then
              if i2 + 1 ≥ pixSize then .ok b
              else do
                let dx ← rd (byteAt? pix i2)
                let dy ← rd (byteAt? pix (i2+1))
                let p := rle8Delta W H x y dx dy
                rle8Loop pix pixSize W H td pal fuel p.1 p.2 (i2 + 2) b
            else
              if i2 + cmd > pixSize then .ok b
              else do
                let s ← rle8Abs pix pal W H td cmd x y i2 b
                let i3 := if cmd % 2 = 1 ∧ s.2.2.1 < pixSize then s.2.2.1 + 1 else s.2.2.1
                rle8Loop pix pixSize W H td pal fuel s.1 s.2.1 i3 s.2.2.2
    else .ok b

/-- `Reader::decode_rle8`: the output buffer is assigned `W*H*4` zero
bytes before the stream is consumed. -/
def decode_rle8 (pix : List Nat) (pixSize : Nat) (m : Metadata) (pal : List PaletteEntry) :
    Except Err Image :=
  if pal = [] then throw .missingPalette
  else do
  let W := m.absWidth
  let H := m.absHeight
  let b0 : Buf := ⟨W * H * 4, fun _ => 0⟩
  let b ← rle8Loop pix pixSize W H m.topDown pal (pixSize + 1) 0 0 0 b0
  pure { meta := m, format := .BGRA8, pixels := b.toList, palette := pal }

/-- One encoded RLE4 run: the pixel byte packs two 4-bit indices; pixels
alternate high then low nibble.  The cursor is a `uint32_t` in the
source, so the `x++`/`y++` increments wrap mod `2^32` — reachable for
`x`, because the RLE4 delta escape leaves `x` unclamped, after which a
wrapping `x++` can bring the cursor back below the width and the
following `put` calls write real pixels again. -/
def rle4Run (pal : List PaletteEntry) (W H : Nat) (td : Bool) (hi lo : Nat) :
    Nat → Nat → Nat → Nat → Buf → Nat × Nat × Buf
  | 0, _, x, y, b => (x, y, b)
  | k+1, j, x, y, b =>
    let idx := if j % 2 = 1 then lo else hi
    let yy := if td then y else H - 1 - y
    let b2 := putClip pal W H b x yy idx
    let x2 := (x + 1) % 4294967296
    if x2 ≥ W then
      let y2 := (y + 1) % 4294967296
      if y2 ≥ H then (0, y2, b2)
      else rle4Run pal W H td hi lo k (j+1) 0 y2 b2
    else rle4Run pal W H td hi lo k (j+1) x2 y b2

/-- The absolute-mode run of `decode_rle4`: pixel `k` takes the high or
low nibble of stream byte `i + k/2`; `i` itself is advanced only after
the whole run. -/
def rle4Abs (pix : List Nat) (pal : List PaletteEntry) (W H : Nat) (td : Bool) (i : Nat) :
    Nat → Nat → Nat → Nat → Buf → Except Err (Nat × Nat × Buf)
  | 0, _, x, y, b => .ok (x, y, b)
  | k+1, j, x, y, b => do
    let byte ← rd (byteAt? pix (i + j / 2))
    let nib := if j % 2 = 1 then byte &&& 0xF else (byte >>> 4) &&& 0xF
    let yy := if td then y else H - 1 - y
    let b2 := putClip pal W H b x yy nib
    let x2 := (x + 1) % 4294967296
    if x2 ≥ W then
      let y2 := (y + 1) % 4294967296
      if y2 ≥ H then .ok (0, y2, b2)
      else rle4Abs pix pal W H td i k (j+1) 0 y2 b2
    else rle4Abs pix pal W H td i k (j+1) x2 y b2

/-- The main loop of `decode_rle4`
(`while (i < pix_size && y < H) { ... }`), fuel-indexed like the RLE8
loop. -/
def rle4Loop (pix : List Nat) (pixSize W H : Nat) (td : Bool) (pal : List PaletteEntry) :
    Nat → Nat → Nat → Nat → Buf → Except Err Buf
  | 0, _, _, _, b => .ok b
  | fuel+1, x, y, i, b =>
    if i < pixSize ∧ y < H then do
      let count ← rd (byteAt? pix i)
      let i1 := i + 1
      if count ≠ 0 then
        if i1 ≥ pixSize then .ok b
        else do
          let byte ← rd (byteAt? pix i1)
          let hi := (byte >>> 4) &&& 0xF
          let lo := byte &&& 0xF
          let s := rle4Run pal W H td hi lo count 0 x y b
          rle4Loop pix pixSize W H td pal fuel s.1 s.2.1 (i1 + 1) s.2.2
      else
        if i1 ≥ pixSize then .ok b
        else do
          let cmd ← rd (byteAt? pix i1)
          let i2 := i1 + 1
          if cmd = 0 then rle4Loop pix pixSize W H td pal fuel 0 ((y+1) % 4294967296) i2 b
          else if cmd = 1 then .ok b
          else if cmd = 2 then
            if i2 + 1 ≥ pixSize then .ok b
            else do
              let dx ← rd (byteAt? pix i2)
              let dy ← rd (byteAt? pix (i2+1))
              let p := rle4Delta x y dx dy
              rle4Loop pix pixSize W H td pal fuel p.1 p.2 (i2 + 2) b
          else
            let bytes := (cmd + 1) / 2
            if i2 + bytes > pixSize then .ok b
            else do
              let s ← rle4Abs pix pal W H td i2 cmd 0 x y b
              let i3 := i2 + bytes
              let i4 := if bytes % 2 = 1 ∧ i3 < pixSize then i3 + 1 else i3
              rle4Loop pix pixSize W H td pal fuel s.1 s.2.1 i4 s.2.2
    else .ok b

/-- `Reader::decode_rle4`: the output buffer is assigned `W*H*4` zero
bytes before the stream is consumed. -/
def decode_rle4 (pix : List Nat) (pixSize : Nat) (m : Metadata) (pal : List PaletteEntry) :
    Except Err Image :=
  if pal = [] then throw .missingPalette
  else do
  let W := m.absWidth
  let H := m.absHeight
  let b0 : Buf := ⟨W * H * 4, fun _ => 0⟩
  let b ← rle4Loop pix pixSize W H m.topDown pal (pixSize + 1) 0 0 0 b0
  pure { meta := m, format := .BGRA8, pixels := b.toList, palette := pal }

/-- One row of the 8-bpp branch of `decode_indexed_uncompressed`:
`for (x = 0; x < W; x++) put_px(x, y, src[x])`.  Fuel counts the
remaining pixels of the row. -/
def idxRow8 (pix : List Nat) (pal : List PaletteEntry) (W : Nat) (rowOff y : Nat) :
    Nat → Nat → Buf → Except Err Buf
  | 0, _, b => .ok b
  | fuel+1, x, b =>
    if x < W then do
      let v ← rd (byteAt? pix (rowOff + x))
      idxRow8 pix pal W rowOff y fuel (x + 1) (putPxU pal W b x y v)
    else .ok b

/-- One row of the 4-bpp branch: each source byte packs two indices, high
nibble first (`x` advances by 2). -/
def idxRow4 (pix : List Nat) (pal : List PaletteEntry) (W : Nat) (rowOff y : Nat) :
    Nat → Nat → Buf → Except Err Buf
  | 0, _, b => .ok b
  | fuel+1, x, b =>
    if x < W then do
      let byte ← rd (byteAt? pix (rowOff + x / 2))
      let hi := (byte >>> 4) &&& 0xF
      let lo := byte &&& 0xF
      let b2 := putPxU pal W b x y hi
      let b3 := if x + 1 < W then putPxU pal W b2 (x+1) y lo else b2
      idxRow4 pix pal W rowOff y fuel (x + 2) b3
    else .ok b

/-- One row of the 2-bpp branch: each source byte packs four indices, most
significant pair first (`x` advances by 4). -/
def idxRow2 (pix : List Nat) (pal : List PaletteEntry) (W : Nat) (rowOff y : Nat) :
    Nat → Nat → Buf → Except Err Buf
  | 0, _, b => .ok b
  | fuel+1, x, b =>
    if x < W then do
      let byte ← rd (byteAt? pix (rowOff + x / 4))
      let i0 := (byte >>> 6) &&& 3
      let i1 := (byte >>> 4) &&& 3
      let i2 := (byte >>> 2) &&& 3
      let i3 := byte &&& 3
      let b2 := putPxU pal W b x y i0
      let b3 := if x + 1 < W then putPxU pal W b2 (x+1) y i1 else b2
      let b4 := if x + 2 < W then putPxU pal W b3 (x+2) y i2 else b3
      let b5 := if x + 3 < W then putPxU pal W b4 (x+3) y i3 else b4
      idxRow2 pix pal W rowOff y fuel (x + 4) b5
    else .ok b

/-- One row of the 1-bpp branch: each source byte holds eight indices,
most significant bit first (`x` advances by 8). -/
def idxRow1 (pix : List Nat) (pal : List PaletteEntry) (W : Nat) (rowOff y : Nat) :
    Nat → Nat → Buf → Except Err Buf
  | 0, _, b => .ok b
  | fuel+1, x, b =>
    if x < W then do
      let byte ← rd (byteAt? pix (rowOff + x / 8))
      let b1 := putPxU pal W b x y ((byte >>> 7) &&& 1)
      let b2 := if x + 1 < W then putPxU pal W b1 (x+1) y ((byte >>> 6) &&& 1) else b1
      let b3 := if x + 2 < W then putPxU pal W b2 (x+2) y ((byte >>> 5) &&& 1) else b2
      let b4 := if x + 3 < W then putPxU pal W b3 (x+3) y ((byte >>> 4) &&& 1) else b3
      let b5 := if x + 4 < W then putPxU pal W b4 (x+4) y ((byte >>> 3) &&& 1) else b4
      let b6 := if x + 5 < W then putPxU pal W b5 (x+5) y ((byte >>> 2) &&& 1) else b5
      let b7 := if x + 6 < W then putPxU pal W b6 (x+6) y ((byte >>> 1) &&& 1) else b6
      let b8 := if x + 7 < W then putPxU pal W b7 (x+7) y (byte &&& 1) else b7
      idxRow1 pix pal W rowOff y fuel (x + 8) b8
    else .ok b

/-- The row loop of `decode_indexed_uncompressed`: source row `row` lands
on destination row `row` for top-down images and `H - 1 - row`
otherwise. -/
def idxRows (pix : List Nat) (pal : List PaletteEntry) (W H stride bpp : Nat) (td : Bool) :
    Nat → Nat → Buf → Except Err Buf
  | 0, _, b => .ok b
  | fuel+1, row, b =>
    if row < H then do
      let rowOff := row * stride
      let y := if td then row else H - 1 - row
      let b2 ←
        if bpp = 8 then idxRow8 pix pal W rowOff y W 0 b
        else if bpp = 4 then idxRow4 pix pal W rowOff y W 0 b
        else if bpp = 2 then idxRow2 pix pal W rowOff y W 0 b
        else idxRow1 pix pal W rowOff y W 0 b
      idxRows pix pal W H stride bpp td fuel (row + 1) b2
    else .ok b

/-- `Reader::decode_indexed_uncompressed` (1/2/4/8-bpp, BI_RGB). -/
def decode_indexed_uncompressed (pix : List Nat) (pixSize : Nat) (m : Metadata)
    (pal : List PaletteEntry) : Except Err Image :=
  if pal = [] then throw .missingPalette
  else
  let W := m.absWidth
  let H := m.absHeight
  let stride := row_stride_aligned W m.bpp
  if stride * H > pixSize then throw .pixelTruncated
  else do
  let b0 : Buf := ⟨W * H * 4, fun _ => 0⟩
  let b ← idxRows pix pal W H stride m.bpp m.topDown H 0 b0
  pure { meta := m, format := .BGRA8, pixels := b.toList, palette := pal }

/-- Overwrite `bytes.length` bytes of a `Buf` starting at `off`
(a `memcpy` into the pixel vector). -/
def Buf.setSlice (b : Buf) (off : Nat) (bytes : List Nat) : Buf :=
  { b with data := fun j =>
      if off ≤ j ∧ j < off + bytes.length then bytes.getD (j - off) 0 else b.data j }

/-- The row loop of `Reader::decode_bgr24`: each source row of
`W*3` bytes is copied verbatim to the destination row. -/
def bgr24Rows (pix : List Nat) (W H stride : Nat) (td : Bool) :
    Nat → Nat → Buf → Except Err Buf
  | 0, _, b => .ok b
  | fuel+1, row, b =>
    if row < H then do
      let src ← rd (readSlice? pix (row * stride) (W * 3))
      let y := if td then row else H - 1 - row
      bgr24Rows pix W H stride td fuel (row + 1) (b.setSlice (y * W * 3) src)
    else .ok b

/-- `Reader::decode_bgr24` (24-bpp BI_RGB). -/
def decode_bgr24 (pix : List Nat) (pixSize : Nat) (m : Metadata)
    (pal : List PaletteEntry) : Except Err Image :=
  let W := m.absWidth
  let H := m.absHeight
  let stride := row_stride_aligned W 24
  if stride * H > pixSize then throw .pixelTruncated
  else do
  let b0 : Buf := ⟨W * H * 3, fun _ => 0⟩
  let b ← bgr24Rows pix W H stride m.topDown H 0 b0
  pure { meta := m, format := .BGR8, pixels := b.toList, palette := pal }

/-- Inner pixel loop of the BGRA8 path of `decode_bitfields`: read one
16- or 32-bit word, normalize each channel under its mask, and store the
four BGRA bytes (alpha defaults to 255 when the alpha mask is zero). -/
def bfRow (pix : List Nat) (masks : Bitmasks) (W : Nat) (bytesPP rowOff y : Nat) :
    Nat → Nat → Buf → Except Err Buf
  | 0, _, b => .ok b
  | fuel+1, x, b =>
    if x < W then do
      let v ← rd (if bytesPP = 2 then le16? pix (rowOff + x * 2) else le32? pix (rowOff + x * 4))
      let bB := bit_extract_norm v masks.b
      let bG := bit_extract_norm v masks.g
      let bR := bit_extract_norm v masks.r
      let bA := if masks.a ≠ 0 then bit_extract_norm v masks.a else 255
      let off := (y * W + x) * 4
      let b2 := ((((b.set off bB).set (off+1) bG).set (off+2) bR).set (off+3) bA)
      bfRow pix masks W bytesPP rowOff y fuel (x + 1) b2
    else .ok b

/-- Row loop of the BGRA8 path of `decode_bitfields`. -/
def bfRows (pix : List Nat) (masks : Bitmasks) (W H stride bytesPP : Nat) (td : Bool) :
    Nat → Nat → Buf → Except Err Buf
  | 0, _, b => .ok b
  | fuel+1, row, b =>
    if row < H then do
      let y := if td then row else H - 1 - row
      let b2 ← bfRow pix masks W bytesPP (row * stride) y W 0 b
      bfRows pix masks W H stride bytesPP td fuel (row + 1) b2
    else .ok b

/-- Row loop of the RawBitfields path of `decode_bitfields`: rows are
copied verbatim (stride trimmed to `W * bytesPP`). -/
def rawRows (pix : List Nat) (W H stride bytesPP : Nat) (td : Bool) :
    Nat → Nat → Buf → Except Err Buf
  | 0, _, b => .ok b
  | fuel+1, row, b =>
    if row < H then do
      let src ← rd (readSlice? pix (row * stride) (W * bytesPP))
      let y := if td then row else H - 1 - row
      rawRows pix W H stride bytesPP td fuel (row + 1) (b.setSlice (y * W * bytesPP) src)
    else .ok b

/-- `Reader::decode_bitfields` (16/32-bpp): substitute the 32-bpp default
masks when none were parsed, decode to BGRA8 when the masks match one of
the two lossless 8-bit layouts, and expose raw packed words plus masks
otherwise. -/
def decode_bitfields (pix : List Nat) (pixSize : Nat) (m : Metadata)
    (pal : List PaletteEntry) (bytesPP : Nat) : Except Err Image :=
  let W := m.absWidth
  let H := m.absHeight
  let stride := row_stride_aligned W (bytesPP * 8)
  if stride * H > pixSize then throw .pixelTruncated
  else
  let masks := if m.has_masks = false then ⟨0x00FF0000, 0x0000FF00, 0x000000FF, 0xFF000000⟩ else m.masks
  let looks8 := ((masks.r ||| masks.g ||| masks.b ||| masks.a) ≤ 0xFFFFFFFF) ∧
      ((masks.r = 0x00FF0000 ∧ masks.g = 0x0000FF00 ∧ masks.b = 0x000000FF) ∨
       (masks.r = 0x000000FF ∧ masks.g = 0x0000FF00 ∧ masks.b = 0x00FF0000))
  if looks8 then do
    let b0 : Buf := ⟨W * H * 4, fun _ => 0⟩
    let b ← bfRows pix masks W H stride bytesPP m.topDown H 0 b0
    pure { meta := m, format := .BGRA8, pixels := b.toList, palette := pal }
  else do
    let b0 : Buf := ⟨W * H * bytesPP, fun _ => 0⟩
    let b ← rawRows pix W H stride bytesPP m.topDown H 0 b0
    pure { meta := m, format := .RawBitfields, pixels := b.toList, palette := pal,
           raw_masks := masks, raw_bits_per_pixel := bytesPP * 8 }

/-- `Reader::expose_embedded_stream` (BI_JPEG / BI_PNG): copy the pixel
region verbatim. -/
def expose_embedded_stream (pix : List Nat) (pixSize : Nat) (m : Metadata)
    (pal : List PaletteEntry) : Except Err Image :=
  .ok { meta := m, format := .RawBitfields,
        pixels := (pix.take pixSize).map (fun b => b % 256), palette := pal,
        raw_masks := ⟨0, 0, 0, 0⟩, raw_bits_per_pixel := 0 }

/-- Field validation of `Reader::parse` after the DIB header is read:
only `planes == 0`, `bpp == 0` and `width == 0 || height == 0` are
rejected. -/
def validateMeta (m : Metadata) : Except Err Metadata :=
  if m.planes = 0 then .error .invalidPlanes
  else if m.bpp = 0 then .error .invalidBpp
  else if m.width = 0 ∨ m.height = 0 then .error .zeroDimensions
  else .ok m

/-- The common field block of the Windows INFO/V2/V3/V4/V5 header family
(DIB sizes 40/52/56/108/124); the DIB header starts at absolute offset
14. -/
def infoBase (buf : List Nat) (off_bits file_size dib_size : Nat) : Except Err Metadata := do
  let w ← rd (le32? buf 18)
  let h ← rd (le32? buf 22)
  let planes ← rd (le16? buf 26)
  let bpp ← rd (le16? buf 28)
  let comp ← rd (le32? buf 30)
  let isize ← rd (le32? buf 34)
  let px ← rd (le32? buf 38)
  let py ← rd (le32? buf 42)
  let cu ← rd (le32? buf 46)
  let ci ← rd (le32? buf 50)
  let dt : DIBType :=
    if dib_size = 40 then .INFO
    else if dib_size = 52 then .V2
    else if dib_size = 56 then .V3
    else if dib_size = 108 then .V4
    else .V5
  pure { dib_type := dt, width := toInt32 w, height := toInt32 h, planes := planes,
         bpp := bpp, compression := comp, image_size := isize, ppm_x := px, ppm_y := py,
         color_used := cu, color_important := ci,
         file_offset_pixels := off_bits, header_size := dib_size, file_size := file_size }

/-- The bitfield-mask block of the INFO family: for BI_BITFIELDS or
BI_ALPHABITFIELDS the masks live at `dib + 40` — inside the header when
`dib_size >= 52`, or in the 12/16 trailing bytes after a 40-byte header
when those bytes exist (`14 + dib_size + 12 <= n`); otherwise no masks
are recorded. -/
def applyMasksInfoFamily (buf : List Nat) (dib_size : Nat) (m : Metadata) :
    Except Err Metadata := do
  if m.compression = 3 ∨ m.compression = 6 then
    if dib_size ≥ 52 then do
      let mr ← rd (le32? buf 54)
      let mg ← rd (le32? buf 58)
      let mb ← rd (le32? buf 62)
      let m2 := { m with masks := ⟨mr, mg, mb, m.masks.a⟩, has_masks := true }
      if dib_size ≥ 56 then do
        let ma ← rd (le32? buf 66)
        pure { m2 with masks := { m2.masks with a := ma } }
      else pure m2
    else
      if 14 + dib_size + 12 ≤ buf.length then do
        let mr ← rd (le32? buf 54)
        let mg ← rd (le32? buf 58)
        let mb ← rd (le32? buf 62)
        let m2 := { m with masks := ⟨mr, mg, mb, m.masks.a⟩, has_masks := true }
        if m.compression = 6 ∧ 14 + dib_size + 16 ≤ buf.length then do
          let ma ← rd (le32? buf 66)
          pure { m2 with masks := { m2.masks with a := ma } }
        else pure m2
      else pure m
  else pure m

/-- The V4 color-space block (`dib_size >= 108`): color-space type,
CIE XYZ endpoints and the three gamma words. -/
def applyV4 (buf : List Nat) (dib_size : Nat) (m : Metadata) : Except Err Metadata := do
  if dib_size ≥ 108 then do
    let cs ← rd (le32? buf 54)
    let rx ← rd (le32? buf 58)
    let ry ← rd (le32? buf 62)
    let rz ← rd (le32? buf 66)
    let gx ← rd (le32? buf 70)
    let gy ← rd (le32? buf 74)
    let gz ← rd (le32? buf 78)
    let bx ← rd (le32? buf 82)
    let by' ← rd (le32? buf 86)
    let bz ← rd (le32? buf 90)
    let gr ← rd (le32? buf 94)
    let gg ← rd (le32? buf 98)
    let gb ← rd (le32? buf 102)
    pure { m with
           cstype := cs,
           endpoints := ⟨⟨toInt32 rx, toInt32 ry, toInt32 rz⟩,
                         ⟨toInt32 gx, toInt32 gy, toInt32 gz⟩,
                         ⟨toInt32 bx, toInt32 by', toInt32 bz⟩⟩,
           gamma_red := gr, gamma_green := gg, gamma_blue := gb }
  else pure m

/-- The V5 block (`dib_size >= 124`): rendering intent and, for an
embedded profile whose declared range lies inside the buffer, the raw
ICC bytes (out-of-range requests are silently dropped). -/
def applyV5 (buf : List Nat) (dib_size : Nat) (m : Metadata) : Except Err Metadata := do
  if dib_size ≥ 124 then do
    let it ← rd (le32? buf 106)
    let profile_data ← rd (le32? buf 126)
    let profile_size ← rd (le32? buf 130)
    let m2 :=
      if m.cstype = 0x4D424544 ∧ profile_size ≠ 0 then
        let start := 14 + profile_data
        let stop := start + profile_size
        if start ≤ buf.length ∧ stop ≤ buf.length ∧ stop ≥ start then
          { m with embedded_profile := ((buf.drop start).take profile_size).map (fun b => b % 256) }
        else m
      else m
    pure { m2 with intent :=
      if it = 1 then 1 else if it = 2 then 2 else if it = 4 then 4
      else if it = 8 then 8 else 4 }
  else pure m

/-- File header and DIB header parsing of `Reader::parse`, up to (and
excluding) the palette read.  The DIB-size-plus-14 truncation test is the
wrapping 32-bit addition of the C++ source. -/
def parseHeaderCore (buf : List Nat) : Except Err Metadata :=
  let n := buf.length
  if n < 14 then throw .truncatedHeader
  else do
  let b0 ← rd (byteAt? buf 0)
  let b1 ← rd (byteAt? buf 1)
  if ¬ (b0 = 66 ∧ b1 = 77) then throw .notBmp
  else do
  let file_size ← rd (le32? buf 2)
  let _reserved ← rd (le32? buf 6)
  let off_bits ← rd (le32? buf 10)
  if off_bits > n then throw .badOffset
  else if n < 18 then throw .missingDibSize
  else do
  let dib_size ← rd (le32? buf 14)
  if (dib_size + 14) % 4294967296 > n then throw .truncatedDib
  else if dib_size = 12 then do
    let w ← rd (le16? buf 18)
    let h ← rd (le16? buf 20)
    let planes ← rd (le16? buf 22)
    let bpp ← rd (le16? buf 24)
    pure { dib_type := .CORE_OS2_V1, width := toInt16 w, height := toInt16 h,
           planes := planes, bpp := bpp,
           file_offset_pixels := off_bits, header_size := dib_size, file_size := file_size }
  else if dib_size = 16 ∨ dib_size = 64 then
    if dib_size = 64 then do
      let w ← rd (le32? buf 18)
      let h ← rd (le32? buf 22)
      let planes ← rd (le16? buf 26)
      let bpp ← rd (le16? buf 28)
      let comp ← rd (le32? buf 30)
      let isize ← rd (le32? buf 34)
      let px ← rd (le32? buf 38)
      let py ← rd (le32? buf 42)
      let cu ← rd (le32? buf 46)
      let ci ← rd (le32? buf 50)
      pure { dib_type := .OS2_V2, width := toInt32 w, height := toInt32 h,
             planes := planes, bpp := bpp, compression := comp, image_size := isize,
             ppm_x := px, ppm_y := py, color_used := cu, color_important := ci,
             file_offset_pixels := off_bits, header_size := dib_size, file_size := file_size }
    else do
      let w ← rd (le32? buf 18)
      let h ← rd (le32? buf 22)
      let planes ← rd (le16? buf 26)
      let bpp ← rd (le16? buf 28)
      pure { dib_type := .OS2_V2, width := toInt32 w, height := toInt32 h,
             planes := planes, bpp := bpp,
             file_offset_pixels := off_bits, header_size := dib_size, file_size := file_size }
  else if dib_size = 40 ∨ dib_size = 52 ∨ dib_size = 56 ∨ dib_size = 108 ∨ dib_size = 124 then do
    let m1 ← infoBase buf off_bits file_size dib_size
    let m2 ← applyMasksInfoFamily buf dib_size m1
    let m3 ← applyV4 buf dib_size m2
    applyV5 buf dib_size m3
  else throw .unsupportedDib

/-- Header parsing followed by the field validation of `Reader::parse`. -/
def parseHeaderMeta (buf : List Nat) : Except Err Metadata :=
  parseHeaderCore buf >>= validateMeta

/-- `default_palette_entries` of `Reader::parse`. -/
def defaultPaletteEntries (m : Metadata) : Nat :=
  if m.dib_type = .CORE_OS2_V1 then
    if m.bpp ≤ 8 then 2 ^ m.bpp else 0
  else
    if m.bpp ≤ 8 then (if m.color_used ≠ 0 then m.color_used else 2 ^ m.bpp)
    else m.color_used

/-- Read `cnt` 3-byte `(b, g, r)` OS/2 v1 palette entries starting at
`off` (alpha stored as 0). -/
def readEntries3 (buf : List Nat) : Nat → Nat → Except Err (List PaletteEntry)
  | 0, _ => .ok []
  | k+1, off => do
    let b ← rd (byteAt? buf off)
    let g ← rd (byteAt? buf (off+1))
    let r ← rd (byteAt? buf (off+2))
    let rest ← readEntries3 buf k (off+3)
    pure (⟨b, g, r, 0⟩ :: rest)

/-- Read `cnt` 4-byte `(b, g, r, reserved)` palette entries starting at
`off` (the reserved byte is stored as alpha). -/
def readEntries4 (buf : List Nat) : Nat → Nat → Except Err (List PaletteEntry)
  | 0, _ => .ok []
  | k+1, off => do
    let b ← rd (byteAt? buf off)
    let g ← rd (byteAt? buf (off+1))
    let r ← rd (byteAt? buf (off+2))
    let a ← rd (byteAt? buf (off+3))
    let rest ← readEntries4 buf k (off+4)
    pure (⟨b, g, r, a⟩ :: rest)

/-- The palette block of `Reader::parse`: the entry count is capped both
by the bytes actually available between header end and pixel offset and
by the header-declared default count. -/
def readPalette (buf : List Nat) (m : Metadata) : Except Err (List PaletteEntry) :=
  let palette_offset := 14 + m.header_size
  let entries0 := defaultPaletteEntries m
  let avail := if m.file_offset_pixels > palette_offset
               then m.file_offset_pixels - palette_offset else 0
  if entries0 > 0 ∧ avail > 0 then
    if m.dib_type = .CORE_OS2_V1 then
      readEntries3 buf (min (avail / 3) entries0) palette_offset
    else
      readEntries4 buf (min (avail / 4) entries0) palette_offset
  else pure []

/-- The `switch (m.bpp)` dispatch of `Reader::parse`, keyed on
`(bpp, compression)`. -/
def decodeSwitch (pix : List Nat) (pixSize : Nat) (m : Metadata) (pal : List PaletteEntry) :
    Except Err Image :=
  if m.bpp = 1 ∨ m.bpp = 2 ∨ m.bpp = 4 ∨ m.bpp = 8 then
      if m.compression = 0 then decode_indexed_uncompressed pix pixSize m pal
      else if m.compression = 1 ∧ m.bpp = 8 then decode_rle8 pix pixSize m pal
      else if m.compression = 2 ∧ m.bpp = 4 then decode_rle4 pix pixSize m pal
      else if m.compression = 5 ∨ m.compression = 4 then expose_embedded_stream pix pixSize m pal
      else .error .unsupportedCompressionIndexed
    else if m.bpp = 16 then
      if m.compression = 0 then
        decode_bitfields pix pixSize
          { m with has_masks := true, masks := ⟨0x7C00, 0x03E0, 0x001F, 0⟩ } pal 2
      else if m.compression = 3 ∨ m.compression = 6 then decode_bitfields pix pixSize m pal 2
      else if m.compression = 5 ∨ m.compression = 4 then expose_embedded_stream pix pixSize m pal
      else .error .unsupportedCompression16
    else if m.bpp = 24 then
      if m.compression = 0 then decode_bgr24 pix pixSize m pal
      else if m.compression = 5 ∨ m.compression = 4 then expose_embedded_stream pix pixSize m pal
      else .error .unsupportedCompression24
    else if m.bpp = 32 then
      if m.compression = 0 then
        decode_bitfields pix pixSize
          { m with has_masks := true, masks := ⟨0x00FF0000, 0x0000FF00, 0x000000FF, 0xFF000000⟩ }
          pal 4
      else if m.compression = 3 ∨ m.compression = 6 then decode_bitfields pix pixSize m pal 4
      else if m.compression = 5 ∨ m.compression = 4 then expose_embedded_stream pix pixSize m pal
      else .error .unsupportedCompression32
  else .error .unsupportedBpp

/-- The pixel-region setup of `Reader::parse` followed by the dispatch
switch.  The pixel region starts at `file_offset_pixels`; its size is
`image_size` when that is nonzero and no larger than the bytes remaining,
and everything to the end of the buffer otherwise. -/
def dispatchDecode (buf : List Nat) (m : Metadata) (pal : List PaletteEntry) :
    Except Err Image :=
  if m.file_offset_pixels > buf.length then .error .pixelOffsetBeyondData
  else
    let pix := buf.drop m.file_offset_pixels
    let availPix := buf.length - m.file_offset_pixels
    let pixSize := if m.image_size ≠ 0 ∧ m.image_size ≤ availPix then m.image_size else availPix
    decodeSwitch pix pixSize m pal

/-- `Reader::parse` / `bmp::load_from_memory`: the whole decoder. -/
def parse (buf : List Nat) : Except Err Image := do
  let m ← parseHeaderMeta buf
  let pal ← readPalette buf m
  dispatchDecode buf m pal

/-- Little-endian byte encoding of a 16-bit value (test-input helper). -/
def u16le (v : Nat) : List Nat := [v % 256, v / 256 % 256]

/-- Little-endian byte encoding of a 32-bit value (test-input helper). -/
def u32le (v : Nat) : List Nat :=
  [v % 256, v / 256 % 256, v / 65536 % 256, v / 16777216 % 256]

/-- A 40-byte BITMAPINFOHEADER with the given fields (test-input helper). -/
def dib40 (w h planes bpp comp isize : Nat) : List Nat :=
  u32le 40 ++ u32le w ++ u32le h ++ u16le planes ++ u16le bpp ++ u32le comp ++
  u32le isize ++ u32le 0 ++ u32le 0 ++ u32le 0 ++ u32le 0

/-- The 14-byte BMP file header with the given sizes (test-input
helper). -/
def fileHeader (fsize offBits : Nat) : List Nat :=
  [66, 77] ++ u32le fsize ++ u32le 0 ++ u32le offBits

/-- Input for claim C1: 24-bpp, width `0x55555556`, height 1, with a
4-byte pixel region.  `width * 3 = 4294967298` overflows the `uint32_t`
byte count inside `row_stride_aligned` (true stride 4294967298, computed
stride 4), so the truncation check passes and the row copy reads far past
the end of the buffer. -/
def c1buf : List Nat :=
  fileHeader 58 54 ++ dib40 1431655766 1 1 24 0 0 ++ [1, 2, 3, 4]

/-- Input for claim C2 (spec scenario S5): 1-by-1 16-bpp BI_BITFIELDS
with 5-6-5 masks `R=0xF800, G=0x07E0, B=0x001F` and the single pixel word
`0xFFFF` (plus two bytes of row padding). -/
def c2buf : List Nat :=
  fileHeader 70 66 ++ dib40 1 1 1 16 3 0 ++
  u32le 0xF800 ++ u32le 0x07E0 ++ u32le 0x001F ++ [255, 255, 0, 0]

/-- Input for claim C3: identical to a well-formed 1-by-1 24-bpp image
except that the width field holds `-1` (`0xFFFFFFFF`). -/
def c3buf : List Nat :=
  fileHeader 58 54 ++ dib40 4294967295 1 1 24 0 0 ++ [9, 9, 9, 0]

/-- Input for claim C4: a well-formed 1-by-1 24-bpp image whose planes
field holds 2. -/
def c4buf : List Nat :=
  fileHeader 58 54 ++ dib40 1 1 2 24 0 0 ++ [5, 6, 7, 0]

/-- Input for claim C7 (spec scenario S4): width 3, height 1, 8-bpp
BI_RLE8 with a 2-entry palette and the compressed stream
`00 03 00 01 00 00 01`. -/
def c7buf : List Nat :=
  fileHeader 69 62 ++ dib40 3 1 1 8 1 0 ++
  [10, 20, 30, 40] ++ [50, 60, 70, 80] ++ [0, 3, 0, 1, 0, 0, 1]

/-- Witness input for claim C8: 24-bpp BI_PNG passthrough with
`image_size = 3` and six bytes after the pixel offset. -/
def c8wbuf : List Nat :=
  fileHeader 60 54 ++ dib40 1 1 1 24 5 3 ++ [7, 8, 9, 10, 11, 12]

/-- Witness input for claim C10: 1-by-1 16-bpp BI_BITFIELDS whose 40-byte
INFO header is followed by only 4 readable bytes (`n = 62 < 66`), so no
masks are parsed; the pixel word is `0xABCD`. -/
def c10wbuf : List Nat :=
  fileHeader 62 58 ++ dib40 1 1 1 16 3 0 ++ [0, 0, 0, 0] ++ [205, 171, 0, 0]

/-- Number of trailing zero bits, written as the specification describes
it (`shift` = count of trailing zero bits of the mask).  Used by the
specification-side normalization algorithm of claim C6. -/
def trailingZeroBits (m : Nat) : Nat :=
  if m = 0 then 0
  else if m % 2 = 1 then 0
  else trailingZeroBits (m / 2) + 1
termination_by m
decreasing_by simp_wf; omega

/-- Number of contiguous set bits starting at bit 0 (`width` = count of
contiguous set bits starting at `shift`, applied to the shifted mask).
Specification-side helper for claim C6. -/
def contiguousOnes (m : Nat) : Nat :=
  if m % 2 = 1 then contiguousOnes (m / 2) + 1 else 0
termination_by m
decreasing_by simp_wf; omega

/-- The bit-replication step of the specification: repeatedly compute
`x = (x << width) | c` while doubling `width` until `width ≥ 8`, then
take the low 8 bits.  (The guard `0 < w` makes the recursion well
founded; every use starts from `1 ≤ width < 8`, where it agrees with the
plain `width < 8` loop condition.) -/
def replicateToByte (c x w : Nat) : Nat :=
  if h : 0 < w ∧ w < 8 then replicateToByte c ((x <<< w) ||| c) (2 * w) else x % 256
termination_by 8 - w
decreasing_by simp_wf; omega

/-- The channel-normalization algorithm exactly as the specification
words it (claim C6): `shift` trailing zeros, `width` contiguous set bits
at `shift`, raw component `c = (v & M) >> shift`; output `c >> (width-8)`
as a byte when `width ≥ 8`, and the bit-replicated byte otherwise. -/
def bit_extract_norm_spec (v mask : Nat) : Nat :=
  let shift := trailingZeroBits mask
  let width := contiguousOnes (mask >>> shift)
  let c := (v &&& mask) >>> shift
  if width ≥ 8 then (c >>> (width - 8)) % 256
  else replicateToByte c c width

/-- Pixel positions written by one RLE8 run of `k` pixels starting at
`(x, y)` (shared by the encoded and absolute runs of `decode_rle8`,
whose cursor movement is identical; there the clamped delta keeps
`x ≤ W` and `y ≤ H`, so the `uint32_t` increments never wrap): position
`yy*W + x` is recorded exactly when `put` is not clipped. -/
def rleRunPositions (W H : Nat) (td : Bool) : Nat → Nat → Nat → List Nat
  | 0, _, _ => []
  | k+1, x, y =>
    let yy := if td then y else H - 1 - y
    let here := if x ≥ W ∨ yy ≥ H then [] else [yy * W + x]
    let x2 := x + 1
    if x2 ≥ W then
      let y2 := y + 1
      if y2 ≥ H then here
      else here ++ rleRunPositions W H td k 0 y2
    else here ++ rleRunPositions W H td k x2 y

/-- Final cursor position of an RLE8 run of `k` pixels starting at
`(x, y)`. -/
def rleRunEnd (W H : Nat) : Nat → Nat → Nat → Nat × Nat
  | 0, x, y => (x, y)
  | k+1, x, y =>
    let x2 := x + 1
    if x2 ≥ W then
      let y2 := y + 1
      if y2 ≥ H then (0, y2)
      else rleRunEnd W H k 0 y2
    else rleRunEnd W H k x2 y

/-- Number of pixels actually emitted by an RLE8 run of `k` pixels
before it stops (early when the cursor passes the last row); equals the
number of stream bytes consumed by an RLE8 absolute run. -/
def rleStepsTaken (W H : Nat) : Nat → Nat → Nat → Nat
  | 0, _, _ => 0
  | k+1, x, y =>
    let x2 := x + 1
    if x2 ≥ W then
      let y2 := y + 1
      if y2 ≥ H then 1
      else 1 + rleStepsTaken W H k 0 y2
    else 1 + rleStepsTaken W H k x2 y

/-- All pixel positions the RLE8 stream writes: a side-effect-free mirror
of the control flow of `rle8Loop`, collecting the positions of every
unclipped `put`. -/
def rle8Writes (pix : List Nat) (pixSize W H : Nat) (td : Bool) :
    Nat → Nat → Nat → Nat → List Nat
  | 0, _, _, _ => []
  | fuel+1, x, y, i =>
    if i < pixSize ∧ y < H then
      if i + 1 > pixSize then []
      else
        let count := (byteAt? pix i).getD 0
        let i1 := i + 1
        if count ≠ 0 then
          if i1 ≥ pixSize then []
          else
            let e := rleRunEnd W H count x y
            rleRunPositions W H td count x y ++
              rle8Writes pix pixSize W H td fuel e.1 e.2 (i1 + 1)
        else
          if i1 ≥ pixSize then []
          else
            let cmd := (byteAt? pix i1).getD 0
            let i2 := i1 + 1
            if cmd = 0 then rle8Writes pix pixSize W H td fuel 0 (y+1) i2
            else if cmd = 1 then []
            else if cmd = 2 then
              if i2 + 1 ≥ pixSize then []
              else
                let dx := (byteAt? pix i2).getD 0
                let dy := (byteAt? pix (i2+1)).getD 0
                let p := rle8Delta W H x y dx dy
                rle8Writes pix pixSize W H td fuel p.1 p.2 (i2 + 2)
            else
              if i2 + cmd > pixSize then []
              else
                let e := rleRunEnd W H cmd x y
                let iEnd := i2 + rleStepsTaken W H cmd x y
                let i3 := if cmd % 2 = 1 ∧ iEnd < pixSize then iEnd + 1 else iEnd
                rleRunPositions W H td cmd x y ++
                  rle8Writes pix pixSize W H td fuel e.1 e.2 i3
    else []

/-- Pixel positions written by one RLE4 run of `k` pixels starting at
`(x, y)` (shared by the encoded and absolute runs of `decode_rle4`):
like `rleRunPositions` but with the `uint32_t` cursor increments
wrapping mod `2^32`, matching `rle4Run`/`rle4Abs`. -/
def rle4RunPositions (W H : Nat) (td : Bool) : Nat → Nat → Nat → List Nat
  | 0, _, _ => []
  | k+1, x, y =>
    let yy := if td then y else H - 1 - y
    let here := if x ≥ W ∨ yy ≥ H then [] else [yy * W + x]
    let x2 := (x + 1) % 4294967296
    if x2 ≥ W then
      let y2 := (y + 1) % 4294967296
      if y2 ≥ H then here
      else here ++ rle4RunPositions W H td k 0 y2
    else here ++ rle4RunPositions W H td k x2 y

/-- Final cursor position of an RLE4 run of `k` pixels starting at
`(x, y)`, with the wrapping `uint32_t` increments of `rle4Run`. -/
def rle4RunEnd (W H : Nat) : Nat → Nat → Nat → Nat × Nat
  | 0, x, y => (x, y)
  | k+1, x, y =>
    let x2 := (x + 1) % 4294967296
    if x2 ≥ W then
      let y2 := (y + 1) % 4294967296
      if y2 ≥ H then (0, y2)
      else rle4RunEnd W H k 0 y2
    else rle4RunEnd W H k x2 y

/-- All pixel positions the RLE4 stream writes: a side-effect-free mirror
of the control flow of `rle4Loop`, with the wrapping `uint32_t` cursor
arithmetic of `rle4Delta`, `rle4Run` and `rle4Abs`. -/
def rle4Writes (pix : List Nat) (pixSize W H : Nat) (td : Bool) :
    Nat → Nat → Nat → Nat → List Nat
  | 0, _, _, _ => []
  | fuel+1, x, y, i =>
    if i < pixSize ∧ y < H then
      let count := (byteAt? pix i).getD 0
      let i1 := i + 1
      if count ≠ 0 then
        if i1 ≥ pixSize then []
        else
          let e := rle4RunEnd W H count x y
          rle4RunPositions W H td count x y ++
            rle4Writes pix pixSize W H td fuel e.1 e.2 (i1 + 1)
      else
        if i1 ≥ pixSize then []
        else
          let cmd := (byteAt? pix i1).getD 0
          let i2 := i1 + 1
          if cmd = 0 then rle4Writes pix pixSize W H td fuel 0 ((y+1) % 4294967296) i2
          else if cmd = 1 then []
          else if cmd = 2 then
            if i2 + 1 ≥ pixSize then []
            else
              let dx := (byteAt? pix i2).getD 0
              let dy := (byteAt? pix (i2+1)).getD 0
              let p := rle4Delta x y dx dy
              rle4Writes pix pixSize W H td fuel p.1 p.2 (i2 + 2)
          else
            let bytes := (cmd + 1) / 2
            if i2 + bytes > pixSize then []
            else
              let e := rle4RunEnd W H cmd x y
              let i3 := i2 + bytes
              let i4 := if bytes % 2 = 1 ∧ i3 < pixSize then i3 + 1 else i3
              rle4RunPositions W H td cmd x y ++
                rle4Writes pix pixSize W H td fuel e.1 e.2 i4
    else []

/-! Inversion helpers for the `Except` pipeline. -/

theorem exceptBindOk {ε α β : Type} {x : Except ε α} {f : α → Except ε β} {b : β}
    (h : (x >>= f) = .ok b) : ∃ a, x = .ok a ∧ f a = .ok b := by
  cases x with
  | ok a => exact ⟨a, rfl, h⟩
  | error e => exact Except.noConfusion h

theorem validateMeta_ok {m m' : Metadata} (h : validateMeta m = .ok m') :
    m' = m ∧ m.planes ≠ 0 ∧ m.bpp ≠ 0 ∧ m.width ≠ 0 ∧ m.height ≠ 0 := by
  unfold validateMeta at h
  split at h
  · exact Except.noConfusion h
  · split at h
    · exact Except.noConfusion h
    · split at h
      · exact Except.noConfusion h
      · rename_i h1 h2 h3
        cases h
        push_neg at h3
        exact ⟨rfl, h1, h2, h3.1, h3.2⟩

theorem decode_rle8_meta {pix : List Nat} {pixSize : Nat} {m : Metadata}
    {pal : List PaletteEntry} {img : Image}
    (h : decode_rle8 pix pixSize m pal = .ok img) : img.meta = m := by
  unfold decode_rle8 at h
  split at h
  · exact Except.noConfusion h
  · obtain ⟨b, hb, h⟩ := exceptBindOk h
    cases h
    rfl

theorem decode_rle4_meta {pix : List Nat} {pixSize : Nat} {m : Metadata}
    {pal : List PaletteEntry} {img : Image}
    (h : decode_rle4 pix pixSize m pal = .ok img) : img.meta = m := by
  unfold decode_rle4 at h
  split at h
  · exact Except.noConfusion h
  · obtain ⟨b, hb, h⟩ := exceptBindOk h
    cases h
    rfl

theorem decode_indexed_meta {pix : List Nat} {pixSize : Nat} {m : Metadata}
    {pal : List PaletteEntry} {img : Image}
    (h : decode_indexed_uncompressed pix pixSize m pal = .ok img) : img.meta = m := by
  unfold decode_indexed_uncompressed at h
  split at h
  · exact Except.noConfusion h
  · dsimp only at h
    split at h
    · exact Except.noConfusion h
    · obtain ⟨b, hb, h⟩ := exceptBindOk h
      cases h
      rfl

theorem decode_bgr24_meta {pix : List Nat} {pixSize : Nat} {m : Metadata}
    {pal : List PaletteEntry} {img : Image}
    (h : decode_bgr24 pix pixSize m pal = .ok img) : img.meta = m := by
  unfold decode_bgr24 at h
  dsimp only at h
  split at h
  · exact Except.noConfusion h
  · obtain ⟨b, hb, h⟩ := exceptBindOk h
    cases h
    rfl

theorem decode_bitfields_meta {pix : List Nat} {pixSize : Nat} {m : Metadata}
    {pal : List PaletteEntry} {bytesPP : Nat} {img : Image}
    (h : decode_bitfields pix pixSize m pal bytesPP = .ok img) : img.meta = m := by
  unfold decode_bitfields at h
  dsimp only at h
  split at h
  · exact Except.noConfusion h
  · split at h <;> split at h <;>
      (obtain ⟨b, hb, h⟩ := exceptBindOk h; cases h; rfl)

theorem expose_meta {pix : List Nat} {pixSize : Nat} {m : Metadata}
    {pal : List PaletteEntry} {img : Image}
    (h : expose_embedded_stream pix pixSize m pal = .ok img) : img.meta = m := by
  unfold expose_embedded_stream at h
  cases h
  rfl

section

seal decode_rle8 decode_rle4 decode_indexed_uncompressed decode_bgr24 decode_bitfields
seal expose_embedded_stream

theorem decodeSwitch_meta {pix : List Nat} {ps : Nat} {m : Metadata} {pal : List PaletteEntry}
    {img : Image} (h : decodeSwitch pix ps m pal = .ok img) :
    img.meta.width = m.width ∧ img.meta.planes = m.planes := by
  unfold decodeSwitch at h
  repeat' split at h
  all_goals first
    | exact Except.noConfusion h
    | (rw [decode_indexed_meta h]; exact ⟨rfl, rfl⟩)
    | (rw [decode_rle8_meta h]; exact ⟨rfl, rfl⟩)
    | (rw [decode_rle4_meta h]; exact ⟨rfl, rfl⟩)
    | (rw [decode_bgr24_meta h]; exact ⟨rfl, rfl⟩)
    | (rw [decode_bitfields_meta h]; exact ⟨rfl, rfl⟩)
    | (rw [expose_meta h]; exact ⟨rfl, rfl⟩)

end

theorem dispatchDecode_meta {buf : List Nat} {m : Metadata} {pal : List PaletteEntry}
    {img : Image} (h : dispatchDecode buf m pal = .ok img) :
    img.meta.width = m.width ∧ img.meta.planes = m.planes := by
  unfold dispatchDecode at h
  split at h
  · exact Except.noConfusion h
  · exact decodeSwitch_meta h

/-- Claim C1: the specification demands that every byte access of the
decoder stays inside the input buffer and that all computed offsets and
sizes fit the platform size type without wraparound.  The code violates
this: `row_stride_aligned` casts the 64-bit byte count to `uint32_t`, so
for width `0x55555556` at 24 bpp the true row size `4294967298` becomes
stride `4`, the `needed > pix_size` truncation check passes, and
`decode_bgr24`'s row `memcpy` then reads `width * 3` bytes from a 4-byte
pixel region — an out-of-bounds read, observed in the model as the
distinguished `oob` outcome. -/
theorem c1_stride_truncation_oob :
    row_stride_aligned 1431655766 24 = 4 ∧ parse c1buf = .error .oob := ⟨rfl, rfl⟩

/-- Claim C2: the claim (and spec scenario S5) says a 1-by-1 16-bpp
BI_BITFIELDS image with 5-6-5 masks and pixel word `0xFFFF` decodes to
BGRA8 bytes `FF FF FF FF`.  The code disagrees: its lossless-8-bit test
accepts only the two 8:8:8:8 mask layouts, so the 5-6-5 input is returned
as RawBitfields with the two source bytes — even though the decoder's
own `bit_extract_norm` would have replicated each maximal channel to
`0xFF`, and the source comment says only masks "beyond simple 5:6:5 or
8:8:8:8" should be exposed raw. -/
theorem c2_sub8bit_masks_not_bgra8 :
    (parse c2buf).map (fun i => (i.format, i.pixels, i.raw_bits_per_pixel, i.raw_masks)) =
      .ok (.RawBitfields, [255, 255], 16, ⟨0xF800, 0x07E0, 0x001F, 0⟩) ∧
    bit_extract_norm 0xFFFF 0xF800 = 0xFF ∧
    bit_extract_norm 0xFFFF 0x07E0 = 0xFF ∧
    bit_extract_norm 0xFFFF 0x001F = 0xFF := ⟨rfl, rfl, rfl, rfl⟩

/-- Claim C3 counterexample: an input whose parsed width field is `-1`
decodes successfully (the decoders use the absolute value), refuting the
claim that a negative width always yields a parse error. -/
theorem c3_counterexample :
    (parse c3buf).map (fun i => (i.meta.width, i.format, i.pixels)) =
      .ok (-1, .BGR8, [9, 9, 9]) := rfl

/-- Claim C3 (amended): decode rejects only a width field of zero — any
successfully decoded image has a nonzero (possibly negative) parsed
width. -/
theorem c3_amended (buf : List Nat) (img : Image) (h : parse buf = .ok img) :
    img.meta.width ≠ 0 := by
  unfold parse at h
  obtain ⟨m, hm, h⟩ := exceptBindOk h
  obtain ⟨pal, hpal, h⟩ := exceptBindOk h
  unfold parseHeaderMeta at hm
  obtain ⟨m0, hcore, hval⟩ := exceptBindOk hm
  obtain ⟨rfl, hp, hb, hw, hh⟩ := validateMeta_ok hval
  have hd := dispatchDecode_meta h
  rw [hd.1]
  exact hw

/-- Claim C3 witness: the amended theorem applied to the concrete
negative-width input. -/
theorem c3_amended_witness :
    (match parse c3buf with
     | .ok img => img.meta.width ≠ 0
     | .error _ => False) := by
  cases hp : parse c3buf with
  | ok img => exact c3_amended c3buf img hp
  | error e =>
    have hok : ∃ i, parse c3buf = .ok i := ⟨_, rfl⟩
    obtain ⟨i, hi⟩ := hok
    rw [hp] at hi
    exact Except.noConfusion hi

/-- Claim C4 counterexample: an input whose parsed planes field is 2
decodes successfully, refuting the claim that planes ≠ 1 always yields a
parse error. -/
theorem c4_counterexample :
    (parse c4buf).map (fun i => (i.meta.planes, i.format, i.pixels)) =
      .ok (2, .BGR8, [5, 6, 7]) := rfl

/-- Claim C4 (amended): decode rejects only a planes field of zero — any
successfully decoded image has a nonzero parsed planes count. -/
theorem c4_amended (buf : List Nat) (img : Image) (h : parse buf = .ok img) :
    img.meta.planes ≠ 0 := by
  unfold parse at h
  obtain ⟨m, hm, h⟩ := exceptBindOk h
  obtain ⟨pal, hpal, h⟩ := exceptBindOk h
  unfold parseHeaderMeta at hm
  obtain ⟨m0, hcore, hval⟩ := exceptBindOk hm
  obtain ⟨rfl, hp, hb, hw, hh⟩ := validateMeta_ok hval
  have hd := dispatchDecode_meta h
  rw [hd.2]
  exact hp

/-- Claim C4 witness: the amended theorem applied to the concrete
planes-equals-2 input. -/
theorem c4_amended_witness :
    (match parse c4buf with
     | .ok img => img.meta.planes ≠ 0
     | .error _ => False) := by
  cases hp : parse c4buf with
  | ok img => exact c4_amended c4buf img hp
  | error e =>
    have hok : ∃ i, parse c4buf = .ok i := ⟨_, rfl⟩
    obtain ⟨i, hi⟩ := hok
    rw [hp] at hi
    exact Except.noConfusion hi

/-- Claim C5 counterexample: the RLE4 delta transition (the embedding of
`decode_rle4` lines 716-722) performs no clamping — from `(x, y) = (0, 0)`
a delta of `dx = 200` leaves `x = 200`, which exceeds a width of 3,
refuting the claim that both decoders clamp after a delta. -/
theorem c5_counterexample :
    rle4Delta 0 0 200 0 = (200, 0) ∧ ¬ (rle4Delta 0 0 200 0).1 ≤ 3 := by decide

/-- Claim C5 (amended): only the RLE8 decoder clamps the delta escape:
after `rle8Delta` the cursor always satisfies `x ≤ width` and
`y ≤ height` (the RLE4 decoder adds `dx`/`dy` unclamped, as the
counterexample shows). -/
theorem c5_amended (W H x y dx dy : Nat) :
    (rle8Delta W H x y dx dy).1 ≤ W ∧ (rle8Delta W H x y dx dy).2 ≤ H := by
  unfold rle8Delta
  constructor <;> dsimp only <;> split <;> omega

/-- Claim C7: decoding the RLE8 stream `00 03 00 01 00 00 01` (absolute
run of indices 0, 1, 0 with one padding byte) for a 3-by-1 image with a
2-entry palette succeeds with the three pixels drawn from palette
entries 0, 1 and 0. -/
theorem c7_rle8_absolute_run :
    (parse c7buf).map (fun i => (i.format, i.palette, i.pixels)) =
      .ok (.BGRA8, [⟨10, 20, 30, 40⟩, ⟨50, 60, 70, 80⟩],
        [10, 20, 30, 40] ++ [50, 60, 70, 80] ++ [10, 20, 30, 40]) := rfl

/-! Lemmas relating the fuel-indexed bit loops of `bit_extract_norm` to
the specification-side recursions. -/

theorem trailingZeroBits_lt : ∀ k m : Nat, m ≠ 0 → m < 2 ^ k → trailingZeroBits m < k := by
  intro k
  induction k with
  | zero => intro m hm hlt; simp at hlt; omega
  | succ k ih =>
    intro m hm hlt
    rw [trailingZeroBits, if_neg hm]
    by_cases h1 : m % 2 = 1
    · rw [if_pos h1]; omega
    · rw [if_neg h1]
      have h2 : 2 ^ (k+1) = 2 * 2 ^ k := by rw [pow_succ]; ring
      have := ih (m / 2) (by omega) (by omega)
      omega

theorem tzLoop_spec : ∀ fuel m s : Nat, m >>> s ≠ 0 → trailingZeroBits (m >>> s) < fuel →
    tzLoop m fuel s = s + trailingZeroBits (m >>> s) := by
  intro fuel
  induction fuel with
  | zero => intro m s h hf; omega
  | succ fuel ih =>
    intro m s h hf
    rw [tzLoop]
    by_cases h0 : (m >>> s) % 2 = 0
    · rw [if_pos h0]
      have hs : m >>> (s+1) = (m >>> s) / 2 := Nat.shiftRight_succ m s
      have hne : m >>> (s+1) ≠ 0 := by rw [hs]; omega
      have htz : trailingZeroBits (m >>> s) = trailingZeroBits (m >>> (s+1)) + 1 := by
        rw [trailingZeroBits, if_neg h, if_neg (by omega : ¬ (m >>> s) % 2 = 1), hs]
      rw [ih m (s+1) hne (by omega)]
      omega
    · rw [if_neg h0]
      have : trailingZeroBits (m >>> s) = 0 := by
        rw [trailingZeroBits, if_neg h, if_pos (by omega : (m >>> s) % 2 = 1)]
      omega

theorem contiguousOnes_le : ∀ k m : Nat, m < 2 ^ k → contiguousOnes m ≤ k := by
  intro k
  induction k with
  | zero =>
    intro m hlt
    simp at hlt
    subst hlt
    rw [contiguousOnes]
    norm_num
  | succ k ih =>
    intro m hlt
    rw [contiguousOnes]
    by_cases h1 : m % 2 = 1
    · rw [if_pos h1]
      have h2 : 2 ^ (k+1) = 2 * 2 ^ k := by rw [pow_succ]; ring
      have := ih (m / 2) (by omega)
      omega
    · rw [if_neg h1]; omega

theorem onesLoop_spec : ∀ fuel m w : Nat, contiguousOnes m < fuel →
    onesLoop fuel m w = w + contiguousOnes m := by
  intro fuel
  induction fuel with
  | zero => intro m w h; omega
  | succ fuel ih =>
    intro m w h
    rw [onesLoop]
    by_cases h1 : m % 2 = 1
    · rw [if_pos h1]
      have hc : contiguousOnes m = contiguousOnes (m / 2) + 1 := by
        rw [contiguousOnes, if_pos h1]
      rw [ih (m / 2) (w+1) (by omega)]
      omega
    · rw [if_neg h1]
      have hc : contiguousOnes m = 0 := by rw [contiguousOnes, if_neg h1]
      omega

theorem shiftRight_tz_odd : ∀ m : Nat, m ≠ 0 → (m >>> trailingZeroBits m) % 2 = 1 := by
  intro m
  induction m using Nat.strong_induction_on with
  | _ m ih =>
    intro hm
    by_cases h1 : m % 2 = 1
    · rw [trailingZeroBits, if_neg hm, if_pos h1]
      simpa using h1
    · rw [trailingZeroBits, if_neg hm, if_neg h1]
      have hrw : m >>> (trailingZeroBits (m / 2) + 1) = (m / 2) >>> trailingZeroBits (m / 2) := by
        rw [Nat.shiftRight_eq_div_pow, Nat.shiftRight_eq_div_pow, pow_succ,
            mul_comm, Nat.div_div_eq_div_mul, mul_comm]
      rw [hrw]
      exact ih (m / 2) (by omega) (by omega)

theorem repLoop_spec : ∀ w : Nat, 1 ≤ w → ∀ c x : Nat, repLoop c 4 x w = replicateToByte c x w := by
  intro w hw c x
  by_cases h8 : w < 8
  · interval_cases w <;> simp [repLoop, replicateToByte]
  · rw [replicateToByte]
    rw [dif_neg (by omega : ¬ (0 < w ∧ w < 8))]
    show repLoop c (3+1) x w = x % 256
    rw [repLoop, if_neg h8]

theorem bit_extract_norm_eq_spec (v mask : Nat) (hne : mask ≠ 0) (hlt : mask < 4294967296) :
    bit_extract_norm v mask = bit_extract_norm_spec v mask := by
  have h32 : mask < 2 ^ 32 := by norm_num; omega
  unfold bit_extract_norm bit_extract_norm_spec
  rw [if_neg hne]
  dsimp only
  have hsh : tzLoop mask 32 0 = trailingZeroBits mask := by
    have h := tzLoop_spec 32 mask 0 (by simpa using hne)
      (by simpa using trailingZeroBits_lt 32 mask hne h32)
    simpa using h
  rw [hsh]
  have hoddm := shiftRight_tz_odd mask hne
  have hw1 : 1 ≤ contiguousOnes (mask >>> trailingZeroBits mask) := by
    rw [contiguousOnes, if_pos hoddm]; omega
  have hsr : mask >>> trailingZeroBits mask ≤ mask := by
    rw [Nat.shiftRight_eq_div_pow]; exact Nat.div_le_self _ _
  have hwle : contiguousOnes (mask >>> trailingZeroBits mask) ≤ 32 :=
    contiguousOnes_le 32 _ (lt_of_le_of_lt hsr h32)
  have hwid : onesLoop 33 (mask >>> trailingZeroBits mask) 0 =
      contiguousOnes (mask >>> trailingZeroBits mask) := by
    have h := onesLoop_spec 33 (mask >>> trailingZeroBits mask) 0 (by omega)
    simpa using h
  rw [hwid]
  by_cases hge : contiguousOnes (mask >>> trailingZeroBits mask) ≥ 8
  · rw [if_pos hge, if_pos hge]
  · rw [if_neg hge, if_neg hge,
      if_neg (by omega : ¬ contiguousOnes (mask >>> trailingZeroBits mask) = 0)]
    exact repLoop_spec _ (by omega) _ _

/-- Claim C6: for every 32-bit pixel value and nonzero 32-bit mask, the
decoder's `bit_extract_norm` computes exactly the algorithm the
specification describes — `shift` trailing zeros, `width` contiguous set
bits, component `c = (v & M) >> shift`, then `c >> (width - 8)` as a byte
when `width ≥ 8` and bit replication to a byte otherwise — and in
particular the maximal 5-bit component `0x1F` maps to `0xFF`. -/
theorem c6_bit_extract_norm_matches :
    (∀ v mask : Nat, mask ≠ 0 → mask < 4294967296 →
      bit_extract_norm v mask = bit_extract_norm_spec v mask) ∧
    bit_extract_norm 0xFFFF 0x001F = 0xFF :=
  ⟨bit_extract_norm_eq_spec, rfl⟩

/-- Claim C6 witness: the equivalence applied to the concrete 5-6-5 red
mask. -/
theorem c6_witness :
    (0xF800 : Nat) ≠ 0 ∧ (0xF800 : Nat) < 4294967296 ∧
    bit_extract_norm 0xFFFF 0xF800 = bit_extract_norm_spec 0xFFFF 0xF800 :=
  ⟨by decide, by decide, c6_bit_extract_norm_matches.1 0xFFFF 0xF800 (by decide) (by decide)⟩

theorem expose_pixels {pix : List Nat} {pixSize : Nat} {m : Metadata}
    {pal : List PaletteEntry} {img : Image}
    (h : expose_embedded_stream pix pixSize m pal = .ok img) :
    img.pixels = (pix.take pixSize).map (fun b => b % 256) := by
  unfold expose_embedded_stream at h
  cases h
  rfl

section

seal decode_rle8 decode_rle4 decode_indexed_uncompressed decode_bgr24 decode_bitfields
seal expose_embedded_stream

theorem decodeSwitch_embedded {pix : List Nat} {ps : Nat} {m : Metadata}
    {pal : List PaletteEntry} {img : Image}
    (hc : m.compression = 4 ∨ m.compression = 5)
    (h : decodeSwitch pix ps m pal = .ok img) :
    img.pixels = (pix.take ps).map (fun b => b % 256) := by
  unfold decodeSwitch at h
  rcases hc with hc | hc <;>
  · repeat' split at h
    all_goals first
      | exact Except.noConfusion h
      | exact expose_pixels h
      | omega

end

/-- Claim C8: when the header's `image_size` is nonzero and no larger
than the bytes remaining past `file_offset_pixels`, the pixel region is
exactly the first `image_size` bytes after that offset, and otherwise it
is everything to the end of the buffer; for the BI_JPEG/BI_PNG
passthrough the returned pixel bytes are precisely that region. -/
theorem c8_embedded_stream_region (buf : List Nat) (m : Metadata) (img : Image)
    (hm : parseHeaderMeta buf = .ok m) (h : parse buf = .ok img)
    (hc : m.compression = 4 ∨ m.compression = 5) :
    img.pixels = ((buf.drop m.file_offset_pixels).take
      (if m.image_size ≠ 0 ∧ m.image_size ≤ buf.length - m.file_offset_pixels
       then m.image_size else buf.length - m.file_offset_pixels)).map (fun b => b % 256) := by
  unfold parse at h
  obtain ⟨m', hm', h⟩ := exceptBindOk h
  rw [hm] at hm'
  obtain rfl : m = m' := Except.ok.inj hm'
  obtain ⟨pal, hpal, h⟩ := exceptBindOk h
  unfold dispatchDecode at h
  split at h
  · exact Except.noConfusion h
  · dsimp only at h
    exact decodeSwitch_embedded hc h

/-- The metadata parsed from the claim C8 witness input. -/
def c8wmeta : Metadata :=
  match parseHeaderMeta c8wbuf with
  | .ok m => m
  | .error _ => {}

/-- Claim C8 witness: a BI_PNG input with `image_size = 3` and six bytes
after the pixel offset is passed through with exactly the first three
bytes. -/
theorem c8_witness : (parse c8wbuf).map Image.pixels = .ok [7, 8, 9] := by
  cases hp : parse c8wbuf with
  | error e =>
    have hok : ∃ i, parse c8wbuf = .ok i := ⟨_, rfl⟩
    obtain ⟨i, hi⟩ := hok
    rw [hp] at hi
    exact Except.noConfusion hi
  | ok img =>
    have hm : parseHeaderMeta c8wbuf = .ok c8wmeta := rfl
    have h := c8_embedded_stream_region c8wbuf c8wmeta img hm hp (Or.inr rfl)
    show Except.ok img.pixels = Except.ok [7, 8, 9]
    rw [h]
    rfl


theorem rd_ok {α : Type} {o : Option α} {v : α} (h : rd o = .ok v) : o = some v := by
  cases o with
  | none => exact Except.noConfusion h
  | some w => cases h; rfl

theorem byteAt_lt {l : List Nat} {i v : Nat} (h : byteAt? l i = some v) : v < 256 := by
  unfold byteAt? at h
  cases hg : l.get? i with
  | none => rw [hg] at h; exact Option.noConfusion h
  | some w =>
    rw [hg] at h
    simp at h
    omega

theorem le16_lt {l : List Nat} {i v : Nat} (h : le16? l i = some v) : v < 65536 := by
  unfold le16? at h
  cases ha : byteAt? l i with
  | none => rw [ha] at h; exact Option.noConfusion h
  | some a =>
    cases hb : byteAt? l (i+1) with
    | none => rw [ha, hb] at h; exact Option.noConfusion h
    | some b =>
      rw [ha, hb] at h
      simp at h
      have h1 : a < 256 := byteAt_lt ha
      have h2 : b < 256 := byteAt_lt hb
      subst h
      have : (65536 : Nat) = 2 ^ 16 := by norm_num
      rw [this]
      exact Nat.or_lt_two_pow (by omega) (by rw [Nat.shiftLeft_eq]; norm_num; omega)

theorem ben_red_zero {v : Nat} (hv : v < 65536) : bit_extract_norm v 0x00FF0000 = 0 := by
  unfold bit_extract_norm
  rw [if_neg (by norm_num)]
  dsimp only
  have h1 : tzLoop 16711680 32 0 = 16 := by decide
  rw [h1]
  have h2 : onesLoop 33 (16711680 >>> 16) 0 = 8 := by decide
  rw [h2]
  rw [if_pos (by norm_num)]
  have h3 : v &&& 16711680 < 65536 := lt_of_le_of_lt (Nat.and_le_left) hv
  have h4 : (v &&& 16711680) >>> 16 = 0 := by
    rw [Nat.shiftRight_eq_div_pow]
    exact Nat.div_eq_of_lt (by norm_num at h3 ⊢; omega)
  rw [h4]
  decide

theorem ben_alpha_zero {v : Nat} (hv : v < 65536) : bit_extract_norm v 0xFF000000 = 0 := by
  unfold bit_extract_norm
  rw [if_neg (by norm_num)]
  dsimp only
  have h1 : tzLoop 4278190080 32 0 = 24 := by decide
  rw [h1]
  have h2 : onesLoop 33 (4278190080 >>> 24) 0 = 8 := by decide
  rw [h2]
  rw [if_pos (by norm_num)]
  have h3 : v &&& 4278190080 < 65536 := lt_of_le_of_lt (Nat.and_le_left) hv
  have h4 : (v &&& 4278190080) >>> 24 = 0 := by
    rw [Nat.shiftRight_eq_div_pow]
    exact Nat.div_eq_of_lt (by norm_num at h3 ⊢; omega)
  rw [h4]
  decide

theorem bufToList_getD (b : Buf) (j : Nat) :
    b.toList.getD j 0 = if j < b.size then b.data j else 0 := by
  unfold Buf.toList
  split
  · rename_i hj
    rw [List.getD_eq_getElem?_getD, List.getElem?_map, List.getElem?_range hj]
    rfl
  · rename_i hj
    rw [List.getD_eq_getElem?_getD, List.getElem?_map]
    have h2 : (List.range b.size)[j]? = none := by
      rw [List.getElem?_eq_none]
      simpa using Nat.le_of_not_lt hj
    rw [h2]
    rfl

theorem set4_ra_zero (b : Buf) (p j vB vG : Nat) {vR vA : Nat} (hR : vR = 0) (hA : vA = 0)
    (hb : b.data j = 0) (hj : j % 4 = 2 ∨ j % 4 = 3) :
    ((((b.set (p*4) vB).set (p*4+1) vG).set (p*4+2) vR).set (p*4+3) vA).data j = 0 := by
  unfold Buf.set
  dsimp only
  by_cases h3 : j = p*4+3
  · rw [if_pos h3]; exact hA
  · rw [if_neg h3]
    by_cases h2 : j = p*4+2
    · rw [if_pos h2]; exact hR
    · rw [if_neg h2]
      have h1 : j ≠ p*4+1 := by omega
      have h0 : j ≠ p*4 := by omega
      rw [if_neg h1, if_neg h0]
      exact hb

theorem bfRow_ra_zero {pix : List Nat} {W rowOff y : Nat} :
    ∀ (fuel x : Nat) (b b' : Buf),
    bfRow pix ⟨0x00FF0000, 0x0000FF00, 0x000000FF, 0xFF000000⟩ W 2 rowOff y fuel x b = .ok b' →
    (∀ j, j % 4 = 2 ∨ j % 4 = 3 → b.data j = 0) →
    (∀ j, j % 4 = 2 ∨ j % 4 = 3 → b'.data j = 0) := by
  intro fuel
  induction fuel with
  | zero =>
    intro x b b' h hb
    rw [bfRow] at h
    obtain rfl : b = b' := Except.ok.inj h
    exact hb
  | succ fuel ih =>
    intro x b b' h hb
    rw [bfRow] at h
    split at h
    · rw [if_pos rfl] at h
      obtain ⟨v, hv, h⟩ := exceptBindOk h
      dsimp only at h
      have hvlt : v < 65536 := le16_lt (rd_ok hv)
      refine ih (x+1) _ b' h ?_
      intro j hj
      exact set4_ra_zero b (y*W+x) j _ _ (ben_red_zero hvlt)
        (by rw [if_pos (by norm_num)]; exact ben_alpha_zero hvlt) (hb j hj) hj
    · obtain rfl : b = b' := Except.ok.inj h
      exact hb

theorem bfRows_ra_zero {pix : List Nat} {W H stride : Nat} {td : Bool} :
    ∀ (fuel row : Nat) (b b' : Buf),
    bfRows pix ⟨0x00FF0000, 0x0000FF00, 0x000000FF, 0xFF000000⟩ W H stride 2 td fuel row b = .ok b' →
    (∀ j, j % 4 = 2 ∨ j % 4 = 3 → b.data j = 0) →
    (∀ j, j % 4 = 2 ∨ j % 4 = 3 → b'.data j = 0) := by
  intro fuel
  induction fuel with
  | zero =>
    intro row b b' h hb
    rw [bfRows] at h
    obtain rfl : b = b' := Except.ok.inj h
    exact hb
  | succ fuel ih =>
    intro row b b' h hb
    rw [bfRows] at h
    split at h
    · obtain ⟨b2, hb2, h⟩ := exceptBindOk h
      exact ih (row+1) b2 b' h (bfRow_ra_zero W 0 b b2 hb2 hb)
    · obtain rfl : b = b' := Except.ok.inj h
      exact hb

theorem decode_bitfields_nomasks16 {pix : List Nat} {ps : Nat} {m : Metadata}
    {pal : List PaletteEntry} {img : Image} (hmask : m.has_masks = false)
    (h : decode_bitfields pix ps m pal 2 = .ok img) :
    img.format = .BGRA8 ∧ ∀ j, j % 4 = 2 ∨ j % 4 = 3 → img.pixels.getD j 0 = 0 := by
  unfold decode_bitfields at h
  dsimp only at h
  rw [hmask] at h
  rw [if_pos rfl] at h
  split at h
  · exact Except.noConfusion h
  · rw [if_pos (by decide)] at h
    obtain ⟨b, hbf, h⟩ := exceptBindOk h
    cases h
    refine ⟨rfl, ?_⟩
    intro j hj
    show (Buf.toList b).getD j 0 = 0
    rw [bufToList_getD]
    split
    · exact bfRows_ra_zero m.absHeight 0 _ b hbf (fun _ _ => rfl) j hj
    · rfl

theorem infoBase_fields {buf : List Nat} {off_bits file_size dib_size : Nat} {m : Metadata}
    (h : infoBase buf off_bits file_size dib_size = .ok m) :
    m.has_masks = false ∧ m.header_size = dib_size := by
  unfold infoBase at h
  obtain ⟨w, _, h⟩ := exceptBindOk h
  obtain ⟨hh, _, h⟩ := exceptBindOk h
  obtain ⟨pl, _, h⟩ := exceptBindOk h
  obtain ⟨bp, _, h⟩ := exceptBindOk h
  obtain ⟨cp, _, h⟩ := exceptBindOk h
  obtain ⟨is, _, h⟩ := exceptBindOk h
  obtain ⟨px, _, h⟩ := exceptBindOk h
  obtain ⟨py, _, h⟩ := exceptBindOk h
  obtain ⟨cu, _, h⟩ := exceptBindOk h
  obtain ⟨ci, _, h⟩ := exceptBindOk h
  cases h
  exact ⟨rfl, rfl⟩

theorem applyMasks_pres {buf : List Nat} {ds : Nat} {m m' : Metadata}
    (h : applyMasksInfoFamily buf ds m = .ok m') :
    m'.header_size = m.header_size ∧ m'.compression = m.compression := by
  unfold applyMasksInfoFamily at h
  split at h
  · split at h
    · obtain ⟨mr, _, h⟩ := exceptBindOk h
      obtain ⟨mg, _, h⟩ := exceptBindOk h
      obtain ⟨mb, _, h⟩ := exceptBindOk h
      dsimp only at h
      split at h
      · obtain ⟨ma, _, h⟩ := exceptBindOk h
        cases h
        exact ⟨rfl, rfl⟩
      · cases h
        exact ⟨rfl, rfl⟩
    · split at h
      · obtain ⟨mr, _, h⟩ := exceptBindOk h
        obtain ⟨mg, _, h⟩ := exceptBindOk h
        obtain ⟨mb, _, h⟩ := exceptBindOk h
        dsimp only at h
        split at h
        · obtain ⟨ma, _, h⟩ := exceptBindOk h
          cases h
          exact ⟨rfl, rfl⟩
        · cases h
          exact ⟨rfl, rfl⟩
      · cases h
        exact ⟨rfl, rfl⟩
  · cases h
    exact ⟨rfl, rfl⟩

theorem applyMasks_id {buf : List Nat} {ds : Nat} (m : Metadata)
    (hds : ds < 52) (hn : buf.length < 14 + ds + 12) :
    applyMasksInfoFamily buf ds m = .ok m := by
  unfold applyMasksInfoFamily
  split
  · rw [if_neg (by omega), if_neg (by omega)]
    rfl
  · rfl

theorem applyV4_pres {buf : List Nat} {ds : Nat} {m m' : Metadata}
    (h : applyV4 buf ds m = .ok m') :
    m'.has_masks = m.has_masks ∧ m'.header_size = m.header_size ∧
    m'.compression = m.compression := by
  unfold applyV4 at h
  split at h
  · obtain ⟨a1, _, h⟩ := exceptBindOk h
    obtain ⟨a2, _, h⟩ := exceptBindOk h
    obtain ⟨a3, _, h⟩ := exceptBindOk h
    obtain ⟨a4, _, h⟩ := exceptBindOk h
    obtain ⟨a5, _, h⟩ := exceptBindOk h
    obtain ⟨a6, _, h⟩ := exceptBindOk h
    obtain ⟨a7, _, h⟩ := exceptBindOk h
    obtain ⟨a8, _, h⟩ := exceptBindOk h
    obtain ⟨a9, _, h⟩ := exceptBindOk h
    obtain ⟨a10, _, h⟩ := exceptBindOk h
    obtain ⟨a11, _, h⟩ := exceptBindOk h
    obtain ⟨a12, _, h⟩ := exceptBindOk h
    obtain ⟨a13, _, h⟩ := exceptBindOk h
    cases h
    exact ⟨rfl, rfl, rfl⟩
  · cases h
    exact ⟨rfl, rfl, rfl⟩

theorem applyV5_pres {buf : List Nat} {ds : Nat} {m m' : Metadata}
    (h : applyV5 buf ds m = .ok m') :
    m'.has_masks = m.has_masks ∧ m'.header_size = m.header_size ∧
    m'.compression = m.compression := by
  unfold applyV5 at h
  split at h
  · obtain ⟨a1, _, h⟩ := exceptBindOk h
    obtain ⟨a2, _, h⟩ := exceptBindOk h
    obtain ⟨a3, _, h⟩ := exceptBindOk h
    dsimp only at h
    cases h
    refine ⟨?_, ?_, ?_⟩ <;> (dsimp only; split <;> first | rfl | (split <;> rfl))
  · cases h
    exact ⟨rfl, rfl, rfl⟩

theorem parse40_no_masks {buf : List Nat} {m : Metadata}
    (hcore : parseHeaderCore buf = .ok m)
    (h40 : m.header_size = 40) (hcomp : m.compression = 3) (hn : buf.length < 66) :
    m.has_masks = false := by
  unfold parseHeaderCore at hcore
  dsimp only at hcore
  split at hcore
  · exact Except.noConfusion hcore
  · obtain ⟨b0, _, hcore⟩ := exceptBindOk hcore
    obtain ⟨b1, _, hcore⟩ := exceptBindOk hcore
    split at hcore
    · exact Except.noConfusion hcore
    · obtain ⟨fs, _, hcore⟩ := exceptBindOk hcore
      obtain ⟨rsv, _, hcore⟩ := exceptBindOk hcore
      obtain ⟨ob, _, hcore⟩ := exceptBindOk hcore
      split at hcore
      · exact Except.noConfusion hcore
      · split at hcore
        · exact Except.noConfusion hcore
        · obtain ⟨ds, _, hcore⟩ := exceptBindOk hcore
          split at hcore
          · exact Except.noConfusion hcore
          · split at hcore
            · -- dib_size = 12
              rename_i h12
              obtain ⟨w, _, hcore⟩ := exceptBindOk hcore
              obtain ⟨hh, _, hcore⟩ := exceptBindOk hcore
              obtain ⟨pl, _, hcore⟩ := exceptBindOk hcore
              obtain ⟨bp, _, hcore⟩ := exceptBindOk hcore
              cases hcore
              dsimp only at h40
              omega
            · split at hcore
              · -- dib_size = 16 or 64
                rename_i h1664
                split at hcore
                · rename_i h64
                  obtain ⟨w, _, hcore⟩ := exceptBindOk hcore
                  obtain ⟨hh, _, hcore⟩ := exceptBindOk hcore
                  obtain ⟨pl, _, hcore⟩ := exceptBindOk hcore
                  obtain ⟨bp, _, hcore⟩ := exceptBindOk hcore
                  obtain ⟨cp, _, hcore⟩ := exceptBindOk hcore
                  obtain ⟨is, _, hcore⟩ := exceptBindOk hcore
                  obtain ⟨px, _, hcore⟩ := exceptBindOk hcore
                  obtain ⟨py, _, hcore⟩ := exceptBindOk hcore
                  obtain ⟨cu, _, hcore⟩ := exceptBindOk hcore
                  obtain ⟨ci, _, hcore⟩ := exceptBindOk hcore
                  cases hcore
                  dsimp only at h40
                  omega
                · rename_i h64
                  obtain ⟨w, _, hcore⟩ := exceptBindOk hcore
                  obtain ⟨hh, _, hcore⟩ := exceptBindOk hcore
                  obtain ⟨pl, _, hcore⟩ := exceptBindOk hcore
                  obtain ⟨bp, _, hcore⟩ := exceptBindOk hcore
                  cases hcore
                  dsimp only at h40
                  omega
              · split at hcore
                · -- INFO family
                  obtain ⟨m1, hbase, hcore⟩ := exceptBindOk hcore
                  obtain ⟨m2, hmask, hcore⟩ := exceptBindOk hcore
                  obtain ⟨m3, hv4, hv5⟩ := exceptBindOk hcore
                  obtain ⟨hb1, hb2⟩ := infoBase_fields hbase
                  obtain ⟨hm1, hm2⟩ := applyMasks_pres hmask
                  obtain ⟨h41, h42, h43⟩ := applyV4_pres hv4
                  obtain ⟨h51, h52, h53⟩ := applyV5_pres hv5
                  have hds : ds = 40 := by rw [h52, h42, hm1, hb2] at h40; exact h40
                  subst hds
                  have hid := @applyMasks_id buf 40 m1 (by omega) (by omega)
                  have hm12 : m1 = m2 := Except.ok.inj (hid.symm.trans hmask)
                  rw [h51, h41, ← hm12, hb1]
                · exact Except.noConfusion hcore

/-- Claim C10: a 16-bpp BI_BITFIELDS image whose 40-byte INFO header is
not followed by at least 12 readable mask bytes (buffer shorter than 66
bytes) parses with `has_masks = false`; the bitfield decoder then
substitutes the 32-bpp default masks `R=0x00FF0000, G=0x0000FF00,
B=0x000000FF, A=0xFF000000`, which pass the lossless-8-bit test, so the
image decodes to BGRA8 and — the masks being applied to 16-bit pixel
words — every red (offset 2 mod 4) and alpha (offset 3 mod 4) output
byte is 0. -/
theorem c10_default_masks_16bpp :
    (∀ (buf : List Nat) (m : Metadata), parseHeaderMeta buf = .ok m → m.header_size = 40 →
      m.bpp = 16 → m.compression = 3 → buf.length < 66 → m.has_masks = false) ∧
    (∀ (pix : List Nat) (ps : Nat) (m : Metadata) (pal : List PaletteEntry) (img : Image),
      m.has_masks = false → decode_bitfields pix ps m pal 2 = .ok img →
      img.format = .BGRA8 ∧ ∀ j, j % 4 = 2 ∨ j % 4 = 3 → img.pixels.getD j 0 = 0) := by
  constructor
  · intro buf m hm h40 hb hc hn
    unfold parseHeaderMeta at hm
    obtain ⟨m0, hcore, hval⟩ := exceptBindOk hm
    obtain ⟨rfl, -, -, -, -⟩ := validateMeta_ok hval
    exact parse40_no_masks hcore h40 hc hn
  · intro pix ps m pal img hmask h
    exact decode_bitfields_nomasks16 hmask h

/-- The metadata parsed from the claim C10 witness input. -/
def c10wmeta : Metadata :=
  match parseHeaderMeta c10wbuf with
  | .ok m => m
  | .error _ => {}

/-- Claim C10 witness: both halves of the claim applied to the concrete
62-byte input with pixel word `0xABCD`. -/
theorem c10_witness :
    c10wmeta.header_size = 40 ∧ c10wmeta.bpp = 16 ∧ c10wmeta.compression = 3 ∧
    c10wbuf.length < 66 ∧ c10wmeta.has_masks = false ∧
    (match decode_bitfields (c10wbuf.drop 58) 4 c10wmeta [] 2 with
     | .ok img => img.format = .BGRA8 ∧ img.pixels.getD 2 0 = 0 ∧ img.pixels.getD 3 0 = 0
     | .error _ => False) := by
  refine ⟨rfl, rfl, rfl, by decide, ?_, ?_⟩
  · exact c10_default_masks_16bpp.1 c10wbuf c10wmeta rfl rfl rfl rfl (by decide)
  · cases hd : decode_bitfields (c10wbuf.drop 58) 4 c10wmeta [] 2 with
    | error e =>
      have hok : ∃ i, decode_bitfields (c10wbuf.drop 58) 4 c10wmeta [] 2 = .ok i := ⟨_, rfl⟩
      obtain ⟨i, hi⟩ := hok
      rw [hd] at hi
      exact Except.noConfusion hi
    | ok img =>
      have h := c10_default_masks_16bpp.2 _ _ _ _ img rfl hd
      exact ⟨h.1, h.2 2 (Or.inl rfl), h.2 3 (Or.inr rfl)⟩


theorem putClip_frame {pal : List PaletteEntry} {W H : Nat} {b : Buf} {x y idx j : Nat}
    (h : x < W → y < H → j / 4 ≠ y * W + x) :
    (putClip pal W H b x y idx).data j = b.data j := by
  unfold putClip
  split
  · rfl
  · rename_i hc
    push_neg at hc
    have hj := h hc.1 hc.2
    unfold putPxU Buf.set
    dsimp only
    have h0 : j ≠ (y*W+x)*4 := by omega
    have h1 : j ≠ (y*W+x)*4+1 := by omega
    have h2 : j ≠ (y*W+x)*4+2 := by omega
    have h3 : j ≠ (y*W+x)*4+3 := by omega
    rw [if_neg h3, if_neg h2, if_neg h1, if_neg h0]

theorem notMem_here {W H x yy j : Nat}
    (hj : j / 4 ∉ (if x ≥ W ∨ yy ≥ H then ([] : List Nat) else [yy * W + x]))
    (hx : x < W) (hy : yy < H) : j / 4 ≠ yy * W + x := by
  rw [if_neg (by omega)] at hj
  simpa using hj

theorem rle8Run_spec {pal : List PaletteEntry} {W H : Nat} {td : Bool} {val : Nat} :
    ∀ (k x y : Nat) (b : Buf),
    ((rle8Run pal W H td val k x y b).1, (rle8Run pal W H td val k x y b).2.1) =
      rleRunEnd W H k x y ∧
    ∀ j, j / 4 ∉ rleRunPositions W H td k x y →
      ((rle8Run pal W H td val k x y b).2.2).data j = b.data j := by
  intro k
  induction k with
  | zero => intro x y b; exact ⟨rfl, fun j hj => rfl⟩
  | succ k ih =>
    intro x y b
    rw [rle8Run, rleRunEnd, rleRunPositions]
    dsimp only
    by_cases hx : x + 1 ≥ W
    · simp only [if_pos hx]
      by_cases hy : y + 1 ≥ H
      · simp only [if_pos hy]
        refine ⟨by trivial, ?_⟩
        intro j hj
        exact putClip_frame (fun hxW hyH => notMem_here hj hxW hyH)
      · simp only [if_neg hy]
        refine ⟨(ih 0 (y+1) _).1, ?_⟩
        intro j hj
        simp only [List.mem_append] at hj
        push_neg at hj
        rw [(ih 0 (y+1) _).2 j hj.2]
        exact putClip_frame (fun hxW hyH => notMem_here hj.1 hxW hyH)
    · simp only [if_neg hx]
      refine ⟨(ih (x+1) y _).1, ?_⟩
      intro j hj
      simp only [List.mem_append] at hj
      push_neg at hj
      rw [(ih (x+1) y _).2 j hj.2]
      exact putClip_frame (fun hxW hyH => notMem_here hj.1 hxW hyH)

theorem rle8Abs_spec {pix : List Nat} {pal : List PaletteEntry} {W H : Nat} {td : Bool} :
    ∀ (k x y i : Nat) (b : Buf) (s : Nat × Nat × Nat × Buf),
    rle8Abs pix pal W H td k x y i b = .ok s →
    (s.1, s.2.1) = rleRunEnd W H k x y ∧
    s.2.2.1 = i + rleStepsTaken W H k x y ∧
    ∀ j, j / 4 ∉ rleRunPositions W H td k x y → (s.2.2.2).data j = b.data j := by
  intro k
  induction k with
  | zero =>
    intro x y i b s h
    rw [rle8Abs] at h
    cases h
    exact ⟨rfl, by simp [rleStepsTaken], fun j hj => rfl⟩
  | succ k ih =>
    intro x y i b s h
    rw [rle8Abs] at h
    rw [rleRunEnd, rleRunPositions, rleStepsTaken]
    obtain ⟨v, hv, h⟩ := exceptBindOk h
    dsimp only at h ⊢
    by_cases hx : x + 1 ≥ W
    · simp only [if_pos hx] at h ⊢
      by_cases hy : y + 1 ≥ H
      · simp only [if_pos hy] at h ⊢
        cases h
        refine ⟨by trivial, by simp, ?_⟩
        intro j hj
        exact putClip_frame (fun hxW hyH => notMem_here hj hxW hyH)
      · simp only [if_neg hy] at h ⊢
        obtain ⟨he, hi, hf⟩ := ih 0 (y+1) (i+1) _ s h
        refine ⟨he, by omega, ?_⟩
        intro j hj
        simp only [List.mem_append] at hj
        push_neg at hj
        rw [hf j hj.2]
        exact putClip_frame (fun hxW hyH => notMem_here hj.1 hxW hyH)
    · simp only [if_neg hx] at h ⊢
      obtain ⟨he, hi, hf⟩ := ih (x+1) y (i+1) _ s h
      refine ⟨he, by omega, ?_⟩
      intro j hj
      simp only [List.mem_append] at hj
      push_neg at hj
      rw [hf j hj.2]
      exact putClip_frame (fun hxW hyH => notMem_here hj.1 hxW hyH)

theorem rle4Run_spec {pal : List PaletteEntry} {W H : Nat} {td : Bool} {hi lo : Nat} :
    ∀ (k j0 x y : Nat) (b : Buf),
    ((rle4Run pal W H td hi lo k j0 x y b).1, (rle4Run pal W H td hi lo k j0 x y b).2.1) =
      rle4RunEnd W H k x y ∧
    ∀ j, j / 4 ∉ rle4RunPositions W H td k x y →
      ((rle4Run pal W H td hi lo k j0 x y b).2.2).data j = b.data j := by
  intro k
  induction k with
  | zero => intro j0 x y b; exact ⟨rfl, fun j hj => rfl⟩
  | succ k ih =>
    intro j0 x y b
    rw [rle4Run, rle4RunEnd, rle4RunPositions]
    dsimp only
    by_cases hx : (x + 1) % 4294967296 ≥ W
    · simp only [if_pos hx]
      by_cases hy : (y + 1) % 4294967296 ≥ H
      · simp only [if_pos hy]
        refine ⟨by trivial, ?_⟩
        intro j hj
        exact putClip_frame (fun hxW hyH => notMem_here hj hxW hyH)
      · simp only [if_neg hy]
        refine ⟨(ih (j0+1) 0 ((y+1) % 4294967296) _).1, ?_⟩
        intro j hj
        simp only [List.mem_append] at hj
        push_neg at hj
        rw [(ih (j0+1) 0 ((y+1) % 4294967296) _).2 j hj.2]
        exact putClip_frame (fun hxW hyH => notMem_here hj.1 hxW hyH)
    · simp only [if_neg hx]
      refine ⟨(ih (j0+1) ((x+1) % 4294967296) y _).1, ?_⟩
      intro j hj
      simp only [List.mem_append] at hj
      push_neg at hj
      rw [(ih (j0+1) ((x+1) % 4294967296) y _).2 j hj.2]
      exact putClip_frame (fun hxW hyH => notMem_here hj.1 hxW hyH)

theorem rle4Abs_spec {pix : List Nat} {pal : List PaletteEntry} {W H : Nat} {td : Bool} {i0 : Nat} :
    ∀ (k j0 x y : Nat) (b : Buf) (s : Nat × Nat × Buf),
    rle4Abs pix pal W H td i0 k j0 x y b = .ok s →
    (s.1, s.2.1) = rle4RunEnd W H k x y ∧
    ∀ j, j / 4 ∉ rle4RunPositions W H td k x y → (s.2.2).data j = b.data j := by
  intro k
  induction k with
  | zero =>
    intro j0 x y b s h
    rw [rle4Abs] at h
    cases h
    exact ⟨rfl, fun j hj => rfl⟩
  | succ k ih =>
    intro j0 x y b s h
    rw [rle4Abs] at h
    rw [rle4RunEnd, rle4RunPositions]
    obtain ⟨v, hv, h⟩ := exceptBindOk h
    dsimp only at h ⊢
    by_cases hx : (x + 1) % 4294967296 ≥ W
    · simp only [if_pos hx] at h ⊢
      by_cases hy : (y + 1) % 4294967296 ≥ H
      · simp only [if_pos hy] at h ⊢
        cases h
        refine ⟨by trivial, ?_⟩
        intro j hj
        exact putClip_frame (fun hxW hyH => notMem_here hj hxW hyH)
      · simp only [if_neg hy] at h ⊢
        obtain ⟨he, hf⟩ := ih (j0+1) 0 ((y+1) % 4294967296) _ s h
        refine ⟨he, ?_⟩
        intro j hj
        simp only [List.mem_append] at hj
        push_neg at hj
        rw [hf j hj.2]
        exact putClip_frame (fun hxW hyH => notMem_here hj.1 hxW hyH)
    · simp only [if_neg hx] at h ⊢
      obtain ⟨he, hf⟩ := ih (j0+1) ((x+1) % 4294967296) y _ s h
      refine ⟨he, ?_⟩
      intro j hj
      simp only [List.mem_append] at hj
      push_neg at hj
      rw [hf j hj.2]
      exact putClip_frame (fun hxW hyH => notMem_here hj.1 hxW hyH)

theorem rle8Loop_frame {pix : List Nat} {pixSize W H : Nat} {td : Bool} {pal : List PaletteEntry} :
    ∀ (fuel x y i : Nat) (b b' : Buf),
    rle8Loop pix pixSize W H td pal fuel x y i b = .ok b' →
    ∀ j, j / 4 ∉ rle8Writes pix pixSize W H td fuel x y i → b'.data j = b.data j := by
  intro fuel
  induction fuel with
  | zero =>
    intro x y i b b' h j hj
    rw [rle8Loop] at h
    cases h
    rfl
  | succ fuel ih =>
    intro x y i b b' h j hj
    rw [rle8Loop] at h
    rw [rle8Writes] at hj
    split at h
    · rename_i hcond
      rw [if_pos hcond] at hj
      split at h
      · cases h; rfl
      · rename_i hdead
        rw [if_neg hdead] at hj
        obtain ⟨count, hcnt, h⟩ := exceptBindOk h
        rw [rd_ok hcnt] at hj
        try dsimp only at h
        simp only [Option.getD] at hj
        by_cases hc0 : count ≠ 0
        · simp only [if_pos hc0] at h hj
          by_cases hp1 : i + 1 ≥ pixSize
          · simp only [if_pos hp1] at h; cases h; rfl
          · simp only [if_neg hp1] at h hj
            obtain ⟨val, hval, h⟩ := exceptBindOk h
            try dsimp only at h hj
            have hs := @rle8Run_spec pal W H td val count x y b
            simp only [List.mem_append] at hj
            push_neg at hj
            have he1 : (rle8Run pal W H td val count x y b).1 =
                (rleRunEnd W H count x y).1 := by rw [← hs.1]
            have he2 : (rle8Run pal W H td val count x y b).2.1 =
                (rleRunEnd W H count x y).2 := by rw [← hs.1]
            have hrec := ih (rle8Run pal W H td val count x y b).1
              (rle8Run pal W H td val count x y b).2.1 (i + 1 + 1)
              (rle8Run pal W H td val count x y b).2.2 b' h j
              (by rw [he1, he2]; exact hj.2)
            rw [hrec]
            exact hs.2 j hj.1
        · simp only [if_neg hc0] at h hj
          by_cases hp1 : i + 1 ≥ pixSize
          · simp only [if_pos hp1] at h; cases h; rfl
          · simp only [if_neg hp1] at h hj
            obtain ⟨cmd, hcmd, h⟩ := exceptBindOk h
            rw [rd_ok hcmd] at hj
            try dsimp only at h
            simp only [Option.getD] at hj
            by_cases hcm0 : cmd = 0
            · simp only [if_pos hcm0] at h hj
              exact ih _ _ _ _ b' h j hj
            · simp only [if_neg hcm0] at h hj
              by_cases hcm1 : cmd = 1
              · simp only [if_pos hcm1] at h; cases h; rfl
              · simp only [if_neg hcm1] at h hj
                by_cases hcm2 : cmd = 2
                · simp only [if_pos hcm2] at h hj
                  by_cases hp2 : i + 1 + 1 + 1 ≥ pixSize
                  · simp only [if_pos hp2] at h; cases h; rfl
                  · simp only [if_neg hp2] at h hj
                    obtain ⟨dx, hdx, h⟩ := exceptBindOk h
                    try dsimp only at h
                    obtain ⟨dy, hdy, h⟩ := exceptBindOk h
                    try dsimp only at h
                    rw [rd_ok hdx, rd_ok hdy] at hj
                    simp only [Option.getD] at hj
                    exact ih _ _ _ _ b' h j hj
                · simp only [if_neg hcm2] at h hj
                  by_cases habs : i + 1 + 1 + cmd > pixSize
                  · simp only [if_pos habs] at h; cases h; rfl
                  · simp only [if_neg habs] at h hj
                    obtain ⟨s, hsabs, h⟩ := exceptBindOk h
                    try dsimp only at h hj
                    obtain ⟨he, hi2, hf⟩ := rle8Abs_spec cmd x y (i + 1 + 1) b s hsabs
                    simp only [List.mem_append] at hj
                    push_neg at hj
                    have he1 : s.1 = (rleRunEnd W H cmd x y).1 := by rw [← he]
                    have he2 : s.2.1 = (rleRunEnd W H cmd x y).2 := by rw [← he]
                    have hrec := ih s.1 s.2.1 _ s.2.2.2 b' h j
                      (by rw [he1, he2, hi2]; exact hj.2)
                    rw [hrec]
                    exact hf j hj.1
    · cases h
      rfl

theorem rle4Loop_frame {pix : List Nat} {pixSize W H : Nat} {td : Bool} {pal : List PaletteEntry} :
    ∀ (fuel x y i : Nat) (b b' : Buf),
    rle4Loop pix pixSize W H td pal fuel x y i b = .ok b' →
    ∀ j, j / 4 ∉ rle4Writes pix pixSize W H td fuel x y i → b'.data j = b.data j := by
  intro fuel
  induction fuel with
  | zero =>
    intro x y i b b' h j hj
    rw [rle4Loop] at h
    cases h
    rfl
  | succ fuel ih =>
    intro x y i b b' h j hj
    rw [rle4Loop] at h
    rw [rle4Writes] at hj
    split at h
    · rename_i hcond
      rw [if_pos hcond] at hj
      obtain ⟨count, hcnt, h⟩ := exceptBindOk h
      rw [rd_ok hcnt] at hj
      try dsimp only at h
      simp only [Option.getD] at hj
      by_cases hc0 : count ≠ 0
      · simp only [if_pos hc0] at h hj
        by_cases hp1 : i + 1 ≥ pixSize
        · simp only [if_pos hp1] at h; cases h; rfl
        · simp only [if_neg hp1] at h hj
          obtain ⟨byte, hbyte, h⟩ := exceptBindOk h
          try dsimp only at h hj
          have hs := @rle4Run_spec pal W H td ((byte >>> 4) &&& 0xF) (byte &&& 0xF)
            count 0 x y b
          simp only [List.mem_append] at hj
          push_neg at hj
          have he1 : (rle4Run pal W H td ((byte >>> 4) &&& 0xF) (byte &&& 0xF) count 0 x y b).1 =
              (rle4RunEnd W H count x y).1 := by rw [← hs.1]
          have he2 : (rle4Run pal W H td ((byte >>> 4) &&& 0xF) (byte &&& 0xF) count 0 x y b).2.1 =
              (rle4RunEnd W H count x y).2 := by rw [← hs.1]
          have hrec := ih (rle4Run pal W H td ((byte >>> 4) &&& 0xF) (byte &&& 0xF) count 0 x y b).1
            (rle4Run pal W H td ((byte >>> 4) &&& 0xF) (byte &&& 0xF) count 0 x y b).2.1 (i + 1 + 1)
            (rle4Run pal W H td ((byte >>> 4) &&& 0xF) (byte &&& 0xF) count 0 x y b).2.2 b' h j
            (by rw [he1, he2]; exact hj.2)
          rw [hrec]
          exact hs.2 j hj.1
      · simp only [if_neg hc0] at h hj
        by_cases hp1 : i + 1 ≥ pixSize
        · simp only [if_pos hp1] at h; cases h; rfl
        · simp only [if_neg hp1] at h hj
          obtain ⟨cmd, hcmd, h⟩ := exceptBindOk h
          rw [rd_ok hcmd] at hj
          try dsimp only at h
          simp only [Option.getD] at hj
          by_cases hcm0 : cmd = 0
          · simp only [if_pos hcm0] at h hj
            exact ih _ _ _ _ b' h j hj
          · simp only [if_neg hcm0] at h hj
            by_cases hcm1 : cmd = 1
            · simp only [if_pos hcm1] at h; cases h; rfl
            · simp only [if_neg hcm1] at h hj
              by_cases hcm2 : cmd = 2
              · simp only [if_pos hcm2] at h hj
                by_cases hp2 : i + 1 + 1 + 1 ≥ pixSize
                · simp only [if_pos hp2] at h; cases h; rfl
                · simp only [if_neg hp2] at h hj
                  obtain ⟨dx, hdx, h⟩ := exceptBindOk h
                  try dsimp only at h
                  obtain ⟨dy, hdy, h⟩ := exceptBindOk h
                  try dsimp only at h
                  rw [rd_ok hdx, rd_ok hdy] at hj
                  simp only [Option.getD] at hj
                  exact ih _ _ _ _ b' h j hj
              · simp only [if_neg hcm2] at h hj
                by_cases habs : i + 1 + 1 + (cmd + 1) / 2 > pixSize
                · simp only [if_pos habs] at h; cases h; rfl
                · simp only [if_neg habs] at h hj
                  obtain ⟨s, hsabs, h⟩ := exceptBindOk h
                  try dsimp only at h hj
                  obtain ⟨he, hf⟩ := rle4Abs_spec cmd 0 x y b s hsabs
                  simp only [List.mem_append] at hj
                  push_neg at hj
                  have he1 : s.1 = (rle4RunEnd W H cmd x y).1 := by rw [← he]
                  have he2 : s.2.1 = (rle4RunEnd W H cmd x y).2 := by rw [← he]
                  have hrec := ih s.1 s.2.1 _ s.2.2 b' h j
                    (by rw [he1, he2]; exact hj.2)
                  rw [hrec]
                  exact hf j hj.1
    · cases h
      rfl

/-- Claim C9: both RLE decoders assign a zero-filled `W * H * 4` buffer
before consuming the stream, and the decoding loops only modify pixel
positions recorded by the write-trace mirrors (`rle8Writes` /
`rle4Writes`); hence every pixel position the stream never writes —
positions skipped by delta or end-of-line escapes, and everything after a
premature end of stream — still holds the four bytes `(0, 0, 0, 0)` in
the returned image. -/
theorem c9_rle_unwritten_zero :
    (∀ (pix : List Nat) (pixSize : Nat) (m : Metadata) (pal : List PaletteEntry) (img : Image)
       (p c : Nat),
      decode_rle8 pix pixSize m pal = .ok img →
      p ∉ rle8Writes pix pixSize m.absWidth m.absHeight m.topDown (pixSize + 1) 0 0 0 →
      c < 4 → img.pixels.getD (4 * p + c) 0 = 0) ∧
    (∀ (pix : List Nat) (pixSize : Nat) (m : Metadata) (pal : List PaletteEntry) (img : Image)
       (p c : Nat),
      decode_rle4 pix pixSize m pal = .ok img →
      p ∉ rle4Writes pix pixSize m.absWidth m.absHeight m.topDown (pixSize + 1) 0 0 0 →
      c < 4 → img.pixels.getD (4 * p + c) 0 = 0) := by
  constructor
  · intro pix ps m pal img p c h hp hc
    unfold decode_rle8 at h
    split at h
    · exact Except.noConfusion h
    · obtain ⟨b, hb, h⟩ := exceptBindOk h
      cases h
      show (Buf.toList b).getD (4*p+c) 0 = 0
      rw [bufToList_getD]
      split
      · have hdiv : (4*p+c)/4 = p := by omega
        have hfr := rle8Loop_frame (ps+1) 0 0 0 _ b hb (4*p+c) (by rw [hdiv]; exact hp)
        rw [hfr]
      · rfl
  · intro pix ps m pal img p c h hp hc
    unfold decode_rle4 at h
    split at h
    · exact Except.noConfusion h
    · obtain ⟨b, hb, h⟩ := exceptBindOk h
      cases h
      show (Buf.toList b).getD (4*p+c) 0 = 0
      rw [bufToList_getD]
      split
      · have hdiv : (4*p+c)/4 = p := by omega
        have hfr := rle4Loop_frame (ps+1) 0 0 0 _ b hb (4*p+c) (by rw [hdiv]; exact hp)
        rw [hfr]
      · rfl

/-- Metadata for the claim C9 witness (2-by-1 RLE8 image). -/
def c9m8 : Metadata := { width := 2, height := 1, planes := 1, bpp := 8, compression := 1 }

/-- Metadata for the claim C9 witness (2-by-1 RLE4 image). -/
def c9m4 : Metadata := { width := 2, height := 1, planes := 1, bpp := 4, compression := 2 }

/-- Claim C9 witness: both halves applied to the stream `00 01`
(immediate end-of-bitmap), whose write trace is empty, so pixel 0 of the
decoded image is zero. -/
theorem c9_witness :
    (0 ∉ rle8Writes [0, 1] 2 c9m8.absWidth c9m8.absHeight c9m8.topDown 3 0 0 0) ∧
    (match decode_rle8 [0, 1] 2 c9m8 [⟨1, 2, 3, 4⟩] with
     | .ok img => img.pixels.getD 0 0 = 0
     | .error _ => False) ∧
    (0 ∉ rle4Writes [0, 1] 2 c9m4.absWidth c9m4.absHeight c9m4.topDown 3 0 0 0) ∧
    (match decode_rle4 [0, 1] 2 c9m4 [⟨1, 2, 3, 4⟩] with
     | .ok img => img.pixels.getD 0 0 = 0
     | .error _ => False) := by
  refine ⟨by decide, ?_, by decide, ?_⟩
  · cases hd : decode_rle8 [0, 1] 2 c9m8 [⟨1, 2, 3, 4⟩] with
    | error e =>
      have hok : ∃ i, decode_rle8 [0, 1] 2 c9m8 [⟨1, 2, 3, 4⟩] = .ok i := ⟨_, rfl⟩
      obtain ⟨i, hi⟩ := hok
      rw [hd] at hi
      exact Except.noConfusion hi
    | ok img =>
      exact c9_rle_unwritten_zero.1 [0, 1] 2 c9m8 [⟨1, 2, 3, 4⟩] img 0 0 hd (by decide) (by decide)
  · cases hd : decode_rle4 [0, 1] 2 c9m4 [⟨1, 2, 3, 4⟩] with
    | error e =>
      have hok : ∃ i, decode_rle4 [0, 1] 2 c9m4 [⟨1, 2, 3, 4⟩] = .ok i := ⟨_, rfl⟩
      obtain ⟨i, hi⟩ := hok
      rw [hd] at hi
      exact Except.noConfusion hi
    | ok img =>
      exact c9_rle_unwritten_zero.2 [0, 1] 2 c9m4 [⟨1, 2, 3, 4⟩] img 0 0 hd (by decide) (by decide)
